import Mathlib

/-!
# Verification of the OBJ scene-graph data model, the file helper and `Point3`

Shallow embedding of `source/model/OBJFile.hpp` (namespace `objfile`), of
`File::CopyToBuffer` from `source/core/fileio/file.hpp` (namespace `fileio`)
and of the class template `Point3<T>` from `source/core/math/point3.hpp`
(namespace `core.math`).

Conventions of the embedding

* A C++ pointer is an address (`Addr`, a natural number); `NULL` is address `0`.
* The free store is a partial map from addresses to cells (`Heap`).  `delete p`
  on a null pointer does nothing; on a live cell of the pointed-to type it runs
  the destructor and releases the cell; on anything else it is undefined
  behaviour, which the embedding reports as `Fault.invalidDelete`.
* Every release is appended to a log (`Store.destroyed`), so "destroyed exactly
  once" is a statement about how often an address occurs in that log.
* `uint32` values are natural numbers below `2 ^ 32`.
* A `float` member initialised from a literal is represented by the rational
  value of that literal; no floating-point arithmetic is performed anywhere in
  the embedded code.
* `Point3<T>` is embedded over an abstract component type; its integer
  instantiations compute on integers and reduce every result modulo
  `2 ^ bits` into the range of the type.
-/

namespace objfile

/-! ## Basic types -/

/-- Addresses of the free store; the null pointer is address zero. -/
abbrev Addr := Nat

/-- The null pointer constant (`NULL`, `0L`). -/
def NULL : Addr := 0

/-- Strings of the engine (`core::string::String_c`) are embedded as Lean strings. -/
abbrev String_c := String

/-- Modelled from the spec: the declaration of `Colorf` is missing; the spec
describes a colour by three components (`0.6/0.6/0.6`), and the source builds
one with the three-argument constructor `Colorf(r, g, b)`. -/
structure Colorf where
  r : ℚ
  g : ℚ
  b : ℚ
deriving DecidableEq

/-- Modelled from the spec: the declaration of `Matrix4f` is missing; the spec
calls it a 4×4 matrix.  It is stored as the list of its entries. -/
structure Matrix4f where
  entries : List ℚ
deriving DecidableEq

/-- Modelled from the spec: the declaration of `mesh2::aiPrimitiveType` is
missing; the spec lists the primitive tags point, line, polygon and others. -/
inductive aiPrimitiveType
  | aiPrimitiveType_POINT
  | aiPrimitiveType_LINE
  | aiPrimitiveType_TRIANGLE
  | aiPrimitiveType_POLYGON
deriving DecidableEq

open aiPrimitiveType

/-! ## Face -/

/-- Embedding of `struct Face`: the primitive tag, three pointers to index
arrays and the pointer to the assigned material. -/
structure Face where
  m_PrimitiveType : aiPrimitiveType
  m_pVertices : Addr
  m_pNormals : Addr
  m_pTexturCoords : Addr
  m_pMaterial : Addr
deriving DecidableEq

/-- Constructor `Face::Face(pVertices, pNormals, pTexCoords, pt)`: the member
initialiser list copies the four arguments and sets `m_pMaterial(0L)`. -/
def Face.ctor (pVertices pNormals pTexCoords : Addr) (pt : aiPrimitiveType) : Face :=
  { m_PrimitiveType := pt
    m_pVertices := pVertices
    m_pNormals := pNormals
    m_pTexturCoords := pTexCoords
    m_pMaterial := NULL }

/-- The call `Face(pVertices, pNormals, pTexCoords)` with the default argument
`pt = aiPrimitiveType_POLYGON`. -/
def Face.ctor3 (pVertices pNormals pTexCoords : Addr) : Face :=
  Face.ctor pVertices pNormals pTexCoords aiPrimitiveType_POLYGON

/-! ## Object -/

/-- Embedding of `struct Object`. -/
structure Object where
  m_strObjName : String_c
  m_Transformation : Matrix4f
  m_SubObjects : List Addr
  m_Meshes : List Nat
deriving DecidableEq

/-- Constructor `Object::Object()`: the name is initialised from `""`, the two
vectors are empty, and the transformation is whatever the default constructor
of `Matrix4f` (not part of the sources) leaves in `raw`. -/
def Object.ctor (raw : Object) : Object :=
  { raw with m_strObjName := "", m_SubObjects := [], m_Meshes := [] }

/-! ## Material -/

/-- Number of enumerators before `TextureTypeCount` in `Material::TextureType`. -/
def TextureTypeCount : Nat := 9

/-- Embedding of `struct Material`. -/
structure Material where
  MaterialName : String_c
  texture : String_c
  textureSpecular : String_c
  textureAmbient : String_c
  textureEmissive : String_c
  textureBump : String_c
  textureNormal : String_c
  textureSpecularity : String_c
  textureOpacity : String_c
  textureDisp : String_c
  clamp : Fin TextureTypeCount → Bool
  ambient : Colorf
  diffuse : Colorf
  specular : Colorf
  emissive : Colorf
  alpha : ℚ
  shineness : ℚ
  illumination_model : Int
  ior : ℚ

/-- The assignment `clamp[i] = v` for a `size_t` index `i`. -/
def setClamp (c : Fin TextureTypeCount → Bool) (i : Nat) (v : Bool) :
    Fin TextureTypeCount → Bool :=
  fun j => if j.val = i then v else c j

/-- The loop `for (size_t i = 0; i < TextureTypeCount; ++i) clamp[i] = false;`. -/
def clearClamp (c : Fin TextureTypeCount → Bool) : Fin TextureTypeCount → Bool :=
  (List.range TextureTypeCount).foldl (fun acc i => setClamp acc i false) c

/-- Constructor `Material::Material()`.  `raw` is the object before the body
runs: members that the initialiser list does not mention hold whatever their
own default constructors produce (strings, colours) or are indeterminate (the
`clamp` array). -/
def Material.ctor (raw : Material) : Material :=
  { raw with
    diffuse := ⟨0.6, 0.6, 0.6⟩
    alpha := 1
    shineness := 0
    illumination_model := 1
    ior := 1
    clamp := clearClamp raw.clamp }

/-! ## Mesh -/

/-- Bitwise complement `~x` of an `unsigned int` (32 bits). -/
def bitNot32 (x : Nat) : Nat := (2 ^ 32 - 1) - x % 2 ^ 32

/-- The constant `Mesh::NoMaterial`, initialised with `~0u`. -/
def Mesh.NoMaterial : Nat := bitNot32 0

/-- Embedding of `struct Mesh`. -/
structure Mesh where
  m_Faces : List Addr
  m_pMaterial : Addr
  m_uiNumIndices : Nat
  m_uiUVCoordinates : List Nat
  m_uiMaterialIndex : Nat
  m_hasNormals : Bool
deriving DecidableEq

/-- The call `memset(a, 0, sizeof(uint32) * n)` on an array of `uint32`: the
first `n` elements become zero, the rest is untouched. -/
def memsetZero (a : List Nat) (n : Nat) : List Nat :=
  List.replicate n 0 ++ a.drop n

/-- Constructor `Mesh::Mesh()`.  The macro `AI_MAX_NUMBER_OF_TEXTURECOORDS` is
not part of the sources and is taken as the parameter `maxUV`; `raw` carries the
indeterminate content of `m_uiUVCoordinates` before the `memset`. -/
def Mesh.ctor (maxUV : Nat) (raw : Mesh) : Mesh :=
  { m_Faces := []
    m_pMaterial := NULL
    m_uiNumIndices := 0
    m_uiUVCoordinates := memsetZero raw.m_uiUVCoordinates maxUV
    m_uiMaterialIndex := Mesh.NoMaterial
    m_hasNormals := false }

/-! ## Model -/

/-- Modelled from the spec: the declaration of `Vector3f` is missing; the spec
calls the buffer elements 3-component float vectors. -/
structure Vector3f where
  x : ℚ
  y : ℚ
  z : ℚ
deriving DecidableEq

/-- Embedding of `struct Model`.  The two `std::map` members are stored as the
list of their entries in iteration order. -/
structure Model where
  m_ModelName : String_c
  m_Objects : List Addr
  m_pCurrent : Addr
  m_pCurrentMaterial : Addr
  m_pDefaultMaterial : Addr
  m_MaterialLib : List String_c
  m_GroupLib : List String_c
  m_Vertices : List Vector3f
  m_Normals : List Vector3f
  m_Groups : List (String_c × Addr)
  m_pGroupFaceIDs : Addr
  m_strActiveGroup : String_c
  m_TextureCoord : List Vector3f
  m_pCurrentMesh : Addr
  m_Meshes : List Addr
  m_MaterialMap : List (String_c × Addr)
deriving DecidableEq

/-- Constructor `Model::Model()`: names are `""`, the cursor pointers are
`NULL`, every container starts empty. -/
def Model.ctor : Model :=
  { m_ModelName := ""
    m_Objects := []
    m_pCurrent := NULL
    m_pCurrentMaterial := NULL
    m_pDefaultMaterial := NULL
    m_MaterialLib := []
    m_GroupLib := []
    m_Vertices := []
    m_Normals := []
    m_Groups := []
    m_pGroupFaceIDs := NULL
    m_strActiveGroup := ""
    m_TextureCoord := []
    m_pCurrentMesh := NULL
    m_Meshes := []
    m_MaterialMap := [] }

/-! ## The free store -/

/-- What a live address of the free store holds: one of the five kinds of
object that the data model allocates with `new`. -/
inductive Cell
  | indexArray (v : List Nat)
  | face (f : Face)
  | object (o : Object)
  | mesh (m : Mesh)
  | material (m : Material)

/-- The free store: a partial map from addresses to cells. -/
abbrev Heap := Addr → Option Cell

/-- The free store together with the log of released addresses, in the order
of their release. -/
structure Store where
  heap : Heap
  destroyed : List Addr

/-- Why a run of the embedded code did not produce a store. -/
inductive Fault
  | invalidDelete
  | outOfFuel
deriving DecidableEq

/-- Assignment to a member of the object stored at `p`. -/
def Store.write (s : Store) (p : Addr) (c : Cell) : Store :=
  { s with heap := fun a => if a = p then some c else s.heap a }

/-- Deallocation of the cell at `p`, recorded in the log. -/
def Store.release (s : Store) (p : Addr) : Store :=
  { heap := fun a => if a = p then none else s.heap a
    destroyed := s.destroyed ++ [p] }

/-- A loop `for (it = v.begin(); it != v.end(); ++it) delete *it;` whose body
is the delete expression `d`. -/
def forEach (d : Addr → Store → Except Fault Store) : List Addr → Store → Except Fault Store
  | [], s => .ok s
  | p :: ps, s =>
    match d p s with
    | .ok s1 => forEach d ps s1
    | .error e => .error e

/-- The expression `delete p` for `p` of type `std::vector<uint32>*`. -/
def deleteIndexArray (p : Addr) (s : Store) : Except Fault Store :=
  if p = NULL then .ok s
  else
    match s.heap p with
    | some (.indexArray _) => .ok (s.release p)
    | _ => .error .invalidDelete

/-- Destructor `Face::~Face()` run on the face `f` stored at `this`: each of
the three index arrays is deleted and the member is then set to `NULL`. -/
def Face.dtor (this : Addr) (f : Face) (s : Store) : Except Fault Store :=
  match deleteIndexArray f.m_pVertices s with
  | .error e => .error e
  | .ok s1 =>
    let f1 := { f with m_pVertices := NULL }
    match deleteIndexArray f1.m_pNormals (s1.write this (.face f1)) with
    | .error e => .error e
    | .ok s2 =>
      let f2 := { f1 with m_pNormals := NULL }
      match deleteIndexArray f2.m_pTexturCoords (s2.write this (.face f2)) with
      | .error e => .error e
      | .ok s3 => .ok (s3.write this (.face { f2 with m_pTexturCoords := NULL }))

/-- The expression `delete p` for `p` of type `Face*`. -/
def deleteFace (p : Addr) (s : Store) : Except Fault Store :=
  if p = NULL then .ok s
  else
    match s.heap p with
    | some (.face f) =>
      match Face.dtor p f s with
      | .ok s1 => .ok (s1.release p)
      | .error e => .error e
    | _ => .error .invalidDelete

/-- Destructor `Mesh::~Mesh()` run on the mesh `m`: every stored face pointer
is deleted. -/
def Mesh.dtor (m : Mesh) (s : Store) : Except Fault Store :=
  forEach deleteFace m.m_Faces s

/-- The expression `delete p` for `p` of type `Mesh*`. -/
def deleteMesh (p : Addr) (s : Store) : Except Fault Store :=
  if p = NULL then .ok s
  else
    match s.heap p with
    | some (.mesh m) =>
      match Mesh.dtor m s with
      | .ok s1 => .ok (s1.release p)
      | .error e => .error e
    | _ => .error .invalidDelete

/-- Destructor `Material::~Material()`: the body is empty. -/
def Material.dtor (s : Store) : Except Fault Store := .ok s

/-- The expression `delete p` for `p` of type `Material*`. -/
def deleteMaterial (p : Addr) (s : Store) : Except Fault Store :=
  if p = NULL then .ok s
  else
    match s.heap p with
    | some (.material _) =>
      match Material.dtor s with
      | .ok s1 => .ok (s1.release p)
      | .error e => .error e
    | _ => .error .invalidDelete

/-- The expression `delete p` for `p` of type `Object*`.  The destructor
`Object::~Object()` deletes every sub-object, clears `m_SubObjects`, and the
cell is then released.  The recursion through the sub-objects is bounded by
`fuel`; running out of it is reported as `Fault.outOfFuel`. -/
def deleteObject : Nat → Addr → Store → Except Fault Store
  | 0, _, _ => .error .outOfFuel
  | fuel + 1, p, s =>
    if p = NULL then .ok s
    else
      match s.heap p with
      | some (.object o) =>
        match forEach (deleteObject fuel) o.m_SubObjects s with
        | .ok s1 => .ok ((s1.write p (.object { o with m_SubObjects := [] })).release p)
        | .error e => .error e
      | _ => .error .invalidDelete

/-- Destructor `Model::~Model()`: four loops in source order, over the
objects, the meshes, the group vectors and the materials.  The `clear()` calls
between them empty containers of raw pointers and release nothing. -/
def Model.dtor (fuel : Nat) (m : Model) (s : Store) : Except Fault Store :=
  match forEach (deleteObject fuel) m.m_Objects s with
  | .error e => .error e
  | .ok s1 =>
    match forEach deleteMesh m.m_Meshes s1 with
    | .error e => .error e
    | .ok s2 =>
      match forEach deleteIndexArray (m.m_Groups.map Prod.snd) s2 with
      | .error e => .error e
      | .ok s3 => forEach deleteMaterial (m.m_MaterialMap.map Prod.snd) s3

/-! ## Ownership shapes

The destructors free what an object owns.  Which cells that is, is described by
an ownership shape: a finite tree of addresses.  `Own.null` stands for a null
pointer, `Own.node a parts` for the live cell at `a` together with the shapes of
the pointers it owns, in the order in which its destructor deletes them. -/

/-- Finite trees of addresses. -/
inductive Own
  | null
  | node (addr : Addr) (parts : List Own)

/-- The pointer value that designates a shape. -/
def Own.root : Own → Addr
  | .null => NULL
  | .node a _ => a

mutual
/-- All addresses of a shape, parts first (left to right), the node itself last. -/
def Own.cells : Own → List Addr
  | .null => []
  | .node a parts => Own.cellsOfList parts ++ [a]
/-- All addresses of a list of shapes, left to right. -/
def Own.cellsOfList : List Own → List Addr
  | [] => []
  | t :: ts => t.cells ++ Own.cellsOfList ts
end

mutual
/-- Number of nodes on the longest path from the root of a shape downwards. -/
def Own.depth : Own → Nat
  | .null => 0
  | .node _ parts => Own.depthOfList parts + 1
/-- Largest depth among a list of shapes. -/
def Own.depthOfList : List Own → Nat
  | [] => 0
  | t :: ts => max t.depth (Own.depthOfList ts)
end

/-- The store after the addresses of `l` have been released in that order. -/
def Store.releaseAll (s : Store) (l : List Addr) : Store :=
  { heap := fun a => if a ∈ l then none else s.heap a
    destroyed := s.destroyed ++ l }

/-- The heap `h` holds an index array (or nothing, for a null pointer) of shape `t`. -/
inductive OwnsIndexArray (h : Heap) : Own → Prop
  | null : OwnsIndexArray h .null
  | node (a : Addr) (v : List Nat) :
      a ≠ NULL → h a = some (.indexArray v) → OwnsIndexArray h (.node a [])

/-- The heap `h` holds a material (or nothing, for a null pointer) of shape `t`. -/
inductive OwnsMaterial (h : Heap) : Own → Prop
  | null : OwnsMaterial h .null
  | node (a : Addr) (m : Material) :
      a ≠ NULL → h a = some (.material m) → OwnsMaterial h (.node a [])

/-- The heap `h` holds a face of shape `t`: its three parts are the index
arrays behind `m_pVertices`, `m_pNormals` and `m_pTexturCoords`, each of which
may be null.  Nothing is required of `m_pMaterial`. -/
inductive OwnsFace (h : Heap) : Own → Prop
  | null : OwnsFace h .null
  | node (a : Addr) (f : Face) (tv tn tt : Own) :
      a ≠ NULL → h a = some (.face f) →
      tv.root = f.m_pVertices → tn.root = f.m_pNormals → tt.root = f.m_pTexturCoords →
      OwnsIndexArray h tv → OwnsIndexArray h tn → OwnsIndexArray h tt →
      OwnsFace h (.node a [tv, tn, tt])

/-- The heap `h` holds a mesh of shape `t`: its parts are the faces listed in
`m_Faces`.  Nothing is required of `m_pMaterial`. -/
inductive OwnsMesh (h : Heap) : Own → Prop
  | null : OwnsMesh h .null
  | node (a : Addr) (m : Mesh) (faces : List Own) :
      a ≠ NULL → h a = some (.mesh m) → m.m_Faces = faces.map Own.root →
      (∀ t ∈ faces, OwnsFace h t) → OwnsMesh h (.node a faces)

/-- The heap `h` holds an object tree of shape `t`: the parts of a node are the
trees of the objects listed in its `m_SubObjects`. -/
inductive OwnsObject (h : Heap) : Own → Prop
  | null : OwnsObject h .null
  | node (a : Addr) (o : Object) (subs : List Own) :
      a ≠ NULL → h a = some (.object o) → o.m_SubObjects = subs.map Own.root →
      (∀ t ∈ subs, OwnsObject h t) → OwnsObject h (.node a subs)

/-- The model `m` owns, in the heap `h`, the object trees `objs`, the meshes
`meshes`, the group vectors `groups` and the materials `mats`, and no cell
belongs to two of them.  The cursor members of `m` are not constrained. -/
structure Model.Owns (h : Heap) (m : Model) (objs meshes groups mats : List Own) : Prop where
  objectsEq : m.m_Objects = objs.map Own.root
  objectsHeld : ∀ t ∈ objs, OwnsObject h t
  meshesEq : m.m_Meshes = meshes.map Own.root
  meshesHeld : ∀ t ∈ meshes, OwnsMesh h t
  groupsEq : m.m_Groups.map Prod.snd = groups.map Own.root
  groupsHeld : ∀ t ∈ groups, OwnsIndexArray h t
  materialsEq : m.m_MaterialMap.map Prod.snd = mats.map Own.root
  materialsHeld : ∀ t ∈ mats, OwnsMaterial h t
  separate : (Own.cellsOfList (objs ++ meshes ++ groups ++ mats)).Nodup

/-- What a consumer finds behind an index-array pointer `p`: nothing when the
pointer is null, otherwise the content of the vector stored at `p`. -/
def indexSequence (h : Heap) (p : Addr) : Option (List Nat) :=
  if p = NULL then none
  else
    match h p with
    | some (.indexArray v) => some v
    | _ => none

/-- The index-array pointers of a face that are not null, in the order in
which the destructor deletes them. -/
def Face.present (f : Face) : List Addr :=
  [f.m_pVertices, f.m_pNormals, f.m_pTexturCoords].filter (fun p => p ≠ NULL)

/-- The shape behind a pointer to an object that owns nothing further. -/
def Own.ofPointer (p : Addr) : Own :=
  if p = NULL then .null else .node p []

/-- Whether a cell is a material. -/
def Cell.isMaterial : Cell → Bool
  | .material _ => true
  | _ => false

/-! ## Operations described by the specification only -/

/-- Modelled from the spec: `struct Model` in `OBJFile.hpp` declares no member
function `AddVertex`; the spec describes it as "appends to the respective
shared buffer; returns the new element's index (buffer length before append)". -/
def Model.AddVertex (m : Model) (v : Vector3f) : Nat × Model :=
  (m.m_Vertices.length, { m with m_Vertices := m.m_Vertices ++ [v] })

/-- Modelled from the spec: `AddNormal`, missing from `OBJFile.hpp` like
`AddVertex`, appends to `m_Normals` and returns the buffer length before the
append. -/
def Model.AddNormal (m : Model) (v : Vector3f) : Nat × Model :=
  (m.m_Normals.length, { m with m_Normals := m.m_Normals ++ [v] })

/-- Modelled from the spec: `AddTexCoord`, missing from `OBJFile.hpp` like
`AddVertex`, appends to `m_TextureCoord` and returns the buffer length before
the append. -/
def Model.AddTexCoord (m : Model) (v : Vector3f) : Nat × Model :=
  (m.m_TextureCoord.length, { m with m_TextureCoord := m.m_TextureCoord ++ [v] })

/-- One call of `AddVertex`, `AddNormal` or `AddTexCoord`. -/
inductive AddCall
  | vertex (v : Vector3f)
  | normal (v : Vector3f)
  | texCoord (v : Vector3f)
deriving DecidableEq

/-- Whether two calls append to the same buffer. -/
def AddCall.sameBuffer : AddCall → AddCall → Bool
  | .vertex _, .vertex _ => true
  | .normal _, .normal _ => true
  | .texCoord _, .texCoord _ => true
  | _, _ => false

/-- Length of the buffer that a call appends to. -/
def Model.bufferLength (m : Model) : AddCall → Nat
  | .vertex _ => m.m_Vertices.length
  | .normal _ => m.m_Normals.length
  | .texCoord _ => m.m_TextureCoord.length

/-- Performs one call; the result is the returned index and the model afterwards. -/
def Model.call (m : Model) : AddCall → Nat × Model
  | .vertex v => m.AddVertex v
  | .normal v => m.AddNormal v
  | .texCoord v => m.AddTexCoord v

/-- Performs a sequence of calls; the result is the list of returned indices,
in call order, and the model afterwards. -/
def Model.calls (m : Model) : List AddCall → List Nat × Model
  | [] => ([], m)
  | c :: cs => ((m.call c).1 :: ((m.call c).2.calls cs).1, ((m.call c).2.calls cs).2)

/-- Insertion of a new key into the entry list of a `std::map`, which is kept
in ascending key order. -/
def mapInsert (k : String_c) (v : Addr) : List (String_c × Addr) → List (String_c × Addr)
  | [] => [(k, v)]
  | e :: rest => if k < e.1 then (k, v) :: e :: rest else e :: mapInsert k v rest

/-- Modelled from the spec: `struct Model` in `OBJFile.hpp` declares no member
function `GetOrCreateMaterial`; the spec describes it as "returns existing
Material by name if present in the map, otherwise constructs a new
default-initialized Material, inserts it, and returns it. Name lookup is
exact-string-match, case-sensitive."  `fresh` is the address that `new` hands
out when a material is constructed and `raw` its member state before the
constructor runs.  The result is the returned pointer, the model and the store
afterwards. -/
def Model.GetOrCreateMaterial (m : Model) (name : String_c) (fresh : Addr) (raw : Material)
    (s : Store) : Addr × Model × Store :=
  match m.m_MaterialMap.lookup name with
  | some p => (p, m, s)
  | none =>
    (fresh, { m with m_MaterialMap := mapInsert name fresh m.m_MaterialMap },
      s.write fresh (.material (Material.ctor raw)))

/-- Number of entries of the material map stored under `name`. -/
def Model.materialEntries (m : Model) (name : String_c) : Nat :=
  (m.m_MaterialMap.filter (fun e => e.1 = name)).length

/-! ## A small scene used to instantiate the theorems

Root object at address 1 with the two children 2 and 3; a mesh at 4 with one
face at 5 whose vertex indices live at 6 (no normals, no texture coordinates);
a group vector at 7; a material at 8, referenced by the mesh and the face. -/

/-- Member state of a material before its constructor runs. -/
def Demo.rawMaterial : Material :=
  { MaterialName := "", texture := "", textureSpecular := "", textureAmbient := ""
    textureEmissive := "", textureBump := "", textureNormal := "", textureSpecularity := ""
    textureOpacity := "", textureDisp := "", clamp := fun _ => true
    ambient := ⟨0, 0, 0⟩, diffuse := ⟨0, 0, 0⟩, specular := ⟨0, 0, 0⟩, emissive := ⟨0, 0, 0⟩
    alpha := 0, shineness := 0, illumination_model := 0, ior := 0 }

/-- An object cell with the given sub-objects. -/
def Demo.object (subs : List Addr) : Cell :=
  .object { m_strObjName := "", m_Transformation := ⟨[]⟩, m_SubObjects := subs, m_Meshes := [] }

/-- The face of the scene: a triangle over the vertex indices stored at 6. -/
def Demo.face : Face :=
  { Face.ctor3 6 NULL NULL with m_pMaterial := 8 }

/-- The mesh of the scene. -/
def Demo.mesh : Mesh :=
  { Mesh.ctor 8 ⟨[], 0, 0, [], 0, false⟩ with m_Faces := [5], m_pMaterial := 8, m_uiNumIndices := 3 }

/-- The heap of the scene. -/
def Demo.heap : Heap := fun a =>
  if a = 1 then some (Demo.object [2, 3])
  else if a = 2 then some (Demo.object [])
  else if a = 3 then some (Demo.object [])
  else if a = 4 then some (.mesh Demo.mesh)
  else if a = 5 then some (.face Demo.face)
  else if a = 6 then some (.indexArray [0, 1, 2])
  else if a = 7 then some (.indexArray [0])
  else if a = 8 then some (.material (Material.ctor Demo.rawMaterial))
  else none

/-- The store of the scene, with nothing released so far. -/
def Demo.store : Store := { heap := Demo.heap, destroyed := [] }

/-- The model of the scene; its cursors point into what the model owns. -/
def Demo.model : Model :=
  { Model.ctor with
    m_Objects := [1]
    m_pCurrent := 3
    m_pCurrentMaterial := 8
    m_pDefaultMaterial := 8
    m_Groups := [("g", 7)]
    m_pGroupFaceIDs := 7
    m_pCurrentMesh := 4
    m_Meshes := [4]
    m_MaterialMap := [("m", 8)] }

/-- Shape of the object tree of the scene. -/
def Demo.objectShape : Own := .node 1 [.node 2 [], .node 3 []]

/-- Shape of the face of the scene. -/
def Demo.faceShape : Own := .node 5 [.node 6 [], .null, .null]

/-- Shape of the mesh of the scene. -/
def Demo.meshShape : Own := .node 4 [Demo.faceShape]

end objfile

/-! ## File helper (`source/core/fileio/file.hpp`) -/

namespace fileio

/-- The enumeration `eFileMode`. -/
inductive eFileMode
  | FMODE_READ
  | FMODE_WRITE
  | FMODE_READWRITE
  | FMODE_APPEND
deriving DecidableEq

/-- The C stream behind `FILE *stream`: the bytes that successive reads
deliver from the start of the file (for a text stream, after translation of
line ends), the current position, whether the stream may be read, and the
end-of-file and error indicators. -/
structure FILE where
  content : List Nat
  position : Nat
  readable : Bool
  eofFlag : Bool
  errFlag : Bool
deriving DecidableEq

/-- The data members of `class File`.  `stream` stands for the object the
pointer refers to; `fileSize` is an `int32`. -/
structure File where
  stream : FILE
  path : String
  mode : eFileMode
  readAsBinary : Bool
  isOpen : Bool
  fileSize : Int
deriving DecidableEq

/-- The memory a buffer pointer refers to: the byte at each offset from the
pointer.  A pointer carries no capacity, so none is recorded. -/
abbrev Buffer := Nat → Nat

/-- Conversion of an `int32` to `size_t` of `bits` bits, as applied to the
third argument of `memset` and `fread`. -/
def toSizeT (bits : Nat) (n : Int) : Nat := (n % 2 ^ bits).toNat

/-- The call `memset(buf, c, n)`. -/
def memset (buf : Buffer) (c : Nat) (n : Nat) : Buffer :=
  fun i => if i < n then c else buf i

/-- The call `fread(buf, 1, n, stream)`: the number of bytes read, the buffer
and the stream afterwards.  At most `n` bytes, and no more than the stream has
left after its position, are copied to the start of the buffer. -/
def fread (buf : Buffer) (n : Nat) (st : FILE) : Nat × Buffer × FILE :=
  if st.readable then
    (min n (st.content.length - st.position),
      fun i => if i < min n (st.content.length - st.position)
        then st.content.getD (st.position + i) 0 else buf i,
      { st with
        position := st.position + min n (st.content.length - st.position)
        eofFlag := st.eofFlag || decide (min n (st.content.length - st.position) < n) })
  else (0, buf, { st with errFlag := true })

/-- The call `rewind(stream)`. -/
def rewind (st : FILE) : FILE :=
  { st with position := 0, eofFlag := false, errFlag := false }

/-- What a call of `CopyToBuffer` leaves behind: the returned value, the
memory behind `bufferOut` (nothing for a null pointer) and the stream. -/
structure CopyResult where
  ret : Bool
  buffer : Option Buffer
  stream : FILE

/-- The member function `File::CopyToBuffer(B *bufferOut)`; a null `bufferOut`
is `none`.  A failing `assert( isOpen )` gives no result. -/
def File.CopyToBuffer (bits : Nat) (f : File) (bufferOut : Option Buffer) :
    Option CopyResult :=
  if f.isOpen then
    match bufferOut with
    | none => some { ret := false, buffer := none, stream := f.stream }
    | some buf =>
      let buf1 := if !f.readAsBinary then memset buf 0 (toSizeT bits f.fileSize) else buf
      let r := fread buf1 (toSizeT bits f.fileSize) f.stream
      some { ret := true, buffer := some r.2.1, stream := rewind r.2.2 }
  else none

/-- A text file of five bytes, opened for reading and positioned at offset 2. -/
def Demo.file : File :=
  { stream := { content := [104, 101, 108, 108, 111], position := 2, readable := true
                eofFlag := false, errFlag := false }
    path := "hello.txt"
    mode := .FMODE_READ
    readAsBinary := false
    isOpen := true
    fileSize := 5 }

/-- A text file holding the five bytes of `hello`, with no line end, opened
for reading and positioned at its start; `fileSize` is its size in bytes. -/
def Demo.plainFile : File :=
  { Demo.file with stream := { Demo.file.stream with position := 0 } }

end fileio

/-! ## Three-component points (`source/core/math/point3.hpp`) -/

namespace core.math

/-- What the class template `Point3<T>` uses of its component type `T`: the
conversions `(T)0` and `(T)1`, the arithmetic operators, and the two helpers
`core::Equals` and `core::IsZero` of `mathcommon.hpp`, which is not part of the
sources and whose helpers are therefore parameters. -/
structure Scalar (T : Type) where
  zero : T
  one : T
  add : T → T → T
  sub : T → T → T
  mul : T → T → T
  div : T → T → T
  neg : T → T
  Equals : T → T → Bool
  IsZero : T → Bool

/-- The data members `T x, y, z` of `Point3<T>`. -/
structure Point3 (T : Type) where
  x : T
  y : T
  z : T
deriving DecidableEq

/-- Constructor `Point3(const T x, const T y, const T z)`. -/
def Point3.ctor3 {T : Type} (x y z : T) : Point3 T := { x := x, y := y, z := z }

/-- Constructor `Point3(const T scaler)`: `x = y = z = scaler`. -/
def Point3.ctor1 {T : Type} (scaler : T) : Point3 T := { x := scaler, y := scaler, z := scaler }

/-- Member `Zero()`: `x = y = z = (T)0`; the result is the object afterwards. -/
def Point3.Zero {T : Type} (A : Scalar T) (_this : Point3 T) : Point3 T :=
  { x := A.zero, y := A.zero, z := A.zero }

/-- The expression `(&x)[index]` read as a value: the members `x`, `y`, `z`
lie one after the other, so offset 0 is `x`, offset 1 is `y`, offset 2 is `z`;
an offset beyond the object has no value. -/
def Point3.load {T : Type} (p : Point3 T) (offset : Nat) : Option T :=
  [p.x, p.y, p.z].get? offset

/-- Assignment through the reference `(&x)[index]`: the member at the offset
is replaced; an offset beyond the object gives no result. -/
def Point3.store {T : Type} (p : Point3 T) (offset : Nat) (v : T) : Option (Point3 T) :=
  match offset with
  | 0 => some { p with x := v }
  | 1 => some { p with y := v }
  | 2 => some { p with z := v }
  | _ => none

/-- The const overload `T operator[]( const uint8 index ) const`; a failing
`assert( index < 3 )` gives no result. -/
def Point3.index {T : Type} (p : Point3 T) (index : Nat) : Option T :=
  if index < 3 then p.load index else none

/-- The overload `T &operator[]( const uint8 index )`: the returned reference
is represented by the offset of the member it refers to; a failing
`assert( index < 3 )` gives no result. -/
def Point3.indexRef {T : Type} (_p : Point3 T) (index : Nat) : Option Nat :=
  if index < 3 then some index else none

/-- Unary `operator-`. -/
def Point3.neg {T : Type} (A : Scalar T) (p : Point3 T) : Point3 T :=
  Point3.ctor3 (A.neg p.x) (A.neg p.y) (A.neg p.z)

/-- Binary `operator+`. -/
def Point3.add {T : Type} (A : Scalar T) (p other : Point3 T) : Point3 T :=
  Point3.ctor3 (A.add p.x other.x) (A.add p.y other.y) (A.add p.z other.z)

/-- Binary `operator-`. -/
def Point3.sub {T : Type} (A : Scalar T) (p other : Point3 T) : Point3 T :=
  Point3.ctor3 (A.sub p.x other.x) (A.sub p.y other.y) (A.sub p.z other.z)

/-- Binary `operator*` with a scalar. -/
def Point3.mul {T : Type} (A : Scalar T) (p : Point3 T) (scalar : T) : Point3 T :=
  Point3.ctor3 (A.mul p.x scalar) (A.mul p.y scalar) (A.mul p.z scalar)

/-- Binary `operator/` with a scalar: `T inv = (T)1 / scalar`, then each
component is multiplied by `inv`; a failing `assert(!core::IsZero(scalar))`
gives no result. -/
def Point3.div {T : Type} (A : Scalar T) (p : Point3 T) (scalar : T) : Option (Point3 T) :=
  if A.IsZero scalar then none
  else
    some (Point3.ctor3 (A.mul p.x (A.div A.one scalar)) (A.mul p.y (A.div A.one scalar))
      (A.mul p.z (A.div A.one scalar)))

/-- The operator `==`: three tests with early return. -/
def Point3.eq {T : Type} (A : Scalar T) (p other : Point3 T) : Bool :=
  if !A.Equals p.x other.x then false
  else if !A.Equals p.y other.y then false
  else if !A.Equals p.z other.z then false
  else true

/-- The operator `!=`: three tests with early return. -/
def Point3.ne {T : Type} (A : Scalar T) (p other : Point3 T) : Bool :=
  if !A.Equals p.x other.x then true
  else if !A.Equals p.y other.y then true
  else if !A.Equals p.z other.z then true
  else false

/-- The `Point3` objects of a program, by address.  The compound assignments
take their operands by reference, so they act on this memory. -/
abbrev PointMem (T : Type) := Nat → Point3 T

/-- The assignment `x = v` in the object at `a`. -/
def PointMem.setX {T : Type} (m : PointMem T) (a : Nat) (v : T) : PointMem T :=
  fun b => if b = a then { m b with x := v } else m b

/-- The assignment `y = v` in the object at `a`. -/
def PointMem.setY {T : Type} (m : PointMem T) (a : Nat) (v : T) : PointMem T :=
  fun b => if b = a then { m b with y := v } else m b

/-- The assignment `z = v` in the object at `a`. -/
def PointMem.setZ {T : Type} (m : PointMem T) (a : Nat) (v : T) : PointMem T :=
  fun b => if b = a then { m b with z := v } else m b

/-- The operator `+=` on the object at `this` with the object at `other`:
three assignments in sequence, each reading the memory as it then is; the
result is the memory afterwards and the returned reference `*this`. -/
def Point3.addAssign {T : Type} (A : Scalar T) (m : PointMem T) (this other : Nat) :
    PointMem T × Nat :=
  let m1 := m.setX this (A.add (m this).x (m other).x)
  let m2 := m1.setY this (A.add (m1 this).y (m1 other).y)
  let m3 := m2.setZ this (A.add (m2 this).z (m2 other).z)
  (m3, this)

/-- The operator `-=` on the object at `this` with the object at `other`. -/
def Point3.subAssign {T : Type} (A : Scalar T) (m : PointMem T) (this other : Nat) :
    PointMem T × Nat :=
  let m1 := m.setX this (A.sub (m this).x (m other).x)
  let m2 := m1.setY this (A.sub (m1 this).y (m1 other).y)
  let m3 := m2.setZ this (A.sub (m2 this).z (m2 other).z)
  (m3, this)

/-- The operator `*=` on the object at `this`; the scalar is passed by value. -/
def Point3.mulAssign {T : Type} (A : Scalar T) (m : PointMem T) (this : Nat) (scalar : T) :
    PointMem T × Nat :=
  let m1 := m.setX this (A.mul (m this).x scalar)
  let m2 := m1.setY this (A.mul (m1 this).y scalar)
  let m3 := m2.setZ this (A.mul (m2 this).z scalar)
  (m3, this)

/-- The operator `/=` on the object at `this`; the scalar is passed by value.
A failing `assert(!core::IsZero(scalar))` gives no result. -/
def Point3.divAssign {T : Type} (A : Scalar T) (m : PointMem T) (this : Nat) (scalar : T) :
    Option (PointMem T × Nat) :=
  if A.IsZero scalar then none
  else
    let inv := A.div A.one scalar
    let m1 := m.setX this (A.mul (m this).x inv)
    let m2 := m1.setY this (A.mul (m1 this).y inv)
    let m3 := m2.setZ this (A.mul (m2 this).z inv)
    some (m3, this)

/-! ### Integer component types -/

/-- Reduction of an integer to the value range of an integer type of `bits`
bits: modulo `2 ^ bits`, into `[-2^(bits-1), 2^(bits-1))` for a signed type and
into `[0, 2^bits)` for an unsigned one. -/
def wrapInt (bits : Nat) (signed : Bool) (v : Int) : Int :=
  if signed then (v + 2 ^ (bits - 1)) % 2 ^ bits - 2 ^ (bits - 1) else v % 2 ^ bits

/-- The values of an integer type of `bits` bits. -/
def InRange (bits : Nat) (signed : Bool) (v : Int) : Prop :=
  if signed then -(2 ^ (bits - 1)) ≤ v ∧ v < 2 ^ (bits - 1) else 0 ≤ v ∧ v < 2 ^ bits

/-- The component type `T` for an integer type of `bits` bits: every operator
computes on integers and reduces the result to the range of the type; `/` is
the truncating division of C++. -/
def intScalar (bits : Nat) (signed : Bool) (Equals : Int → Int → Bool) (IsZero : Int → Bool) :
    Scalar Int :=
  { zero := wrapInt bits signed 0
    one := wrapInt bits signed 1
    add := fun a b => wrapInt bits signed (a + b)
    sub := fun a b => wrapInt bits signed (a - b)
    mul := fun a b => wrapInt bits signed (a * b)
    div := fun a b => wrapInt bits signed (Int.tdiv a b)
    neg := fun a => wrapInt bits signed (-a)
    Equals := Equals
    IsZero := IsZero }

/-- The component type of `Point3s` (`int16`). -/
def int16Scalar (Equals : Int → Int → Bool) (IsZero : Int → Bool) : Scalar Int :=
  intScalar 16 true Equals IsZero

/-- The component type of `Point3i` (`int32`). -/
def int32Scalar (Equals : Int → Int → Bool) (IsZero : Int → Bool) : Scalar Int :=
  intScalar 32 true Equals IsZero

/-- The component type of `Point3us` (`uint16`). -/
def uint16Scalar (Equals : Int → Int → Bool) (IsZero : Int → Bool) : Scalar Int :=
  intScalar 16 false Equals IsZero

/-- The component type of `Point3u` (`uint32`). -/
def uint32Scalar (Equals : Int → Int → Bool) (IsZero : Int → Bool) : Scalar Int :=
  intScalar 32 false Equals IsZero

/-- All three components are values of the integer type. -/
def Point3.InRange (bits : Nat) (signed : Bool) (p : Point3 Int) : Prop :=
  core.math.InRange bits signed p.x ∧ core.math.InRange bits signed p.y ∧
    core.math.InRange bits signed p.z

end core.math

/-! # Theorems -/

namespace objfile


/-! ## Helper lemmas on the free store -/

theorem Store.ext_iff_fields (s t : Store) :
    s = t ↔ s.heap = t.heap ∧ s.destroyed = t.destroyed := by
  cases s; cases t; simp

theorem Store.releaseAll_nil (s : Store) : s.releaseAll [] = s := by
  simp [Store.releaseAll]

theorem Store.release_eq_releaseAll (s : Store) (p : Addr) :
    s.release p = s.releaseAll [p] := by
  simp [Store.release, Store.releaseAll]

theorem Store.releaseAll_append (s : Store) (l₁ l₂ : List Addr) :
    (s.releaseAll l₁).releaseAll l₂ = s.releaseAll (l₁ ++ l₂) := by
  simp only [Store.releaseAll, Store.mk.injEq, List.append_assoc, and_true]
  funext a
  by_cases h1 : a ∈ l₁ <;> by_cases h2 : a ∈ l₂ <;> simp [h1, h2]

theorem Store.write_release (s : Store) (p : Addr) (c : Cell) :
    (s.write p c).release p = s.release p := by
  simp only [Store.release, Store.write, Store.mk.injEq, and_true]
  funext a
  by_cases h : a = p <;> simp [h]

theorem Own.cellsOfList_append (l₁ l₂ : List Own) :
    Own.cellsOfList (l₁ ++ l₂) = Own.cellsOfList l₁ ++ Own.cellsOfList l₂ := by
  induction l₁ with
  | nil => simp [Own.cellsOfList]
  | cons t ts ih => simp [Own.cellsOfList, ih]

theorem Own.cells_subset_of_mem {t : Own} {ts : List Own} (ht : t ∈ ts) :
    ∀ a ∈ t.cells, a ∈ Own.cellsOfList ts := by
  induction ts with
  | nil => cases ht
  | cons u us ih =>
    intro a ha
    simp only [Own.cellsOfList, List.mem_append]
    rcases List.mem_cons.mp ht with rfl | h
    · exact Or.inl ha
    · exact Or.inr (ih h a ha)

/-- A loop of delete expressions releases the cells of all shapes, provided
each delete expression releases the cells of its own shape in every store that
agrees with `h` on them. -/
theorem forEach_releaseAll (d : Addr → Store → Except Fault Store) (h : Heap) :
    ∀ (ts : List Own),
      (∀ t ∈ ts, ∀ s : Store, (∀ a ∈ t.cells, s.heap a = h a) → t.cells.Nodup →
        d t.root s = .ok (s.releaseAll t.cells)) →
      ∀ s : Store, (∀ a ∈ Own.cellsOfList ts, s.heap a = h a) →
        (Own.cellsOfList ts).Nodup →
        forEach d (ts.map Own.root) s = .ok (s.releaseAll (Own.cellsOfList ts)) := by
  intro ts
  induction ts with
  | nil =>
    intro _ s _ _
    simp [forEach, Own.cellsOfList, Store.releaseAll_nil]
  | cons t ts ih =>
    intro hd s hs hnd
    simp only [Own.cellsOfList] at hs hnd ⊢
    have hnd' := List.nodup_append.mp hnd
    have h1 := hd t (List.mem_cons_self _ _) s
      (fun a ha => hs a (List.mem_append_left _ ha)) hnd'.1
    simp only [List.map_cons, forEach, h1]
    have h2 := ih (fun u hu => hd u (List.mem_cons_of_mem _ hu)) (s.releaseAll t.cells)
      (by
        intro a ha
        have hna : a ∉ t.cells := fun hin => hnd'.2.2 hin ha
        simp only [Store.releaseAll, hna, if_false]
        exact hs a (List.mem_append_right _ ha))
      hnd'.2.1
    rw [h2, Store.releaseAll_append]

/-! ## What each delete expression releases -/

theorem deleteIndexArray_releases (h : Heap) (t : Own) (ht : OwnsIndexArray h t) (s : Store)
    (hs : ∀ a ∈ t.cells, s.heap a = h a) :
    deleteIndexArray t.root s = .ok (s.releaseAll t.cells) := by
  cases ht with
  | null => simp [deleteIndexArray, Own.root, Own.cells, Store.releaseAll_nil]
  | node a v ha hv =>
    have hsa : s.heap a = some (.indexArray v) := by
      rw [hs a (by simp [Own.cells, Own.cellsOfList]), hv]
    simp [deleteIndexArray, Own.root, Own.cells, Own.cellsOfList, ha, hsa,
      Store.release_eq_releaseAll]

theorem deleteMaterial_releases (h : Heap) (t : Own) (ht : OwnsMaterial h t) (s : Store)
    (hs : ∀ a ∈ t.cells, s.heap a = h a) :
    deleteMaterial t.root s = .ok (s.releaseAll t.cells) := by
  cases ht with
  | null => simp [deleteMaterial, Own.root, Own.cells, Store.releaseAll_nil]
  | node a v ha hv =>
    have hsa : s.heap a = some (.material v) := by
      rw [hs a (by simp [Own.cells, Own.cellsOfList]), hv]
    simp [deleteMaterial, Material.dtor, Own.root, Own.cells, Own.cellsOfList, ha, hsa,
      Store.release_eq_releaseAll]

theorem deleteFace_releases (h : Heap) (t : Own) (ht : OwnsFace h t) (s : Store)
    (hs : ∀ a ∈ t.cells, s.heap a = h a) (hnd : t.cells.Nodup) :
    deleteFace t.root s = .ok (s.releaseAll t.cells) := by
  cases ht with
  | null => simp [deleteFace, Own.root, Own.cells, Store.releaseAll_nil]
  | node a f tv tn tt ha hf hv hn htt ov onn ot =>
    simp only [Own.cells, Own.cellsOfList, List.append_nil] at hs hnd ⊢
    have hsa : s.heap a = some (.face f) := by rw [hs a (by simp), hf]
    have hnd1 := List.nodup_append.mp hnd
    have hnd2 := List.nodup_append.mp hnd1.1
    have hnd3 := List.nodup_append.mp hnd2.2.1
    have hav : a ∉ tv.cells := fun hin =>
      hnd1.2.2 (show a ∈ tv.cells ++ (tn.cells ++ tt.cells) by simp [hin]) (by simp)
    have han : a ∉ tn.cells := fun hin =>
      hnd1.2.2 (show a ∈ tv.cells ++ (tn.cells ++ tt.cells) by simp [hin]) (by simp)
    have hat : a ∉ tt.cells := fun hin =>
      hnd1.2.2 (show a ∈ tv.cells ++ (tn.cells ++ tt.cells) by simp [hin]) (by simp)
    have e1 := deleteIndexArray_releases h tv ov s (fun x hx => hs x (by simp [hx]))
    have e2 := deleteIndexArray_releases h tn onn
      ((s.releaseAll tv.cells).write a (.face { f with m_pVertices := NULL }))
      (by
        intro x hx
        have hxa : x ≠ a := fun e => han (e ▸ hx)
        have hxv : x ∉ tv.cells := fun hin =>
          hnd2.2.2 hin (show x ∈ tn.cells ++ tt.cells by simp [hx])
        simp only [Store.write, Store.releaseAll, hxa, hxv, if_false]
        exact hs x (by simp [hx]))
    have e3 := deleteIndexArray_releases h tt ot
      ((((s.releaseAll tv.cells).write a (.face { f with m_pVertices := NULL })).releaseAll
        tn.cells).write a (.face { f with m_pVertices := NULL, m_pNormals := NULL }))
      (by
        intro x hx
        have hxa : x ≠ a := fun e => hat (e ▸ hx)
        have hxv : x ∉ tv.cells := fun hin =>
          hnd2.2.2 hin (show x ∈ tn.cells ++ tt.cells by simp [hx])
        have hxn : x ∉ tn.cells := fun hin => hnd3.2.2 hin hx
        simp only [Store.write, Store.releaseAll, hxa, hxv, hxn, if_false]
        exact hs x (by simp [hx]))
    rw [hv] at e1
    rw [hn] at e2
    rw [htt] at e3
    simp only [deleteFace, Own.root, ha, if_false, hsa, Face.dtor, e1, e2, e3, Except.ok.injEq]
    rw [Store.ext_iff_fields]
    constructor
    · funext x
      simp only [Store.write, Store.releaseAll, Store.release, List.mem_append,
        List.mem_singleton]
      by_cases hxa : x = a
      · simp [hxa]
      · by_cases h1 : x ∈ tv.cells <;> by_cases h2 : x ∈ tn.cells <;>
          by_cases h3 : x ∈ tt.cells <;> simp [hxa, h1, h2, h3]
    · simp [Store.write, Store.releaseAll, Store.release]

theorem deleteMesh_releases (h : Heap) (t : Own) (ht : OwnsMesh h t) (s : Store)
    (hs : ∀ a ∈ t.cells, s.heap a = h a) (hnd : t.cells.Nodup) :
    deleteMesh t.root s = .ok (s.releaseAll t.cells) := by
  cases ht with
  | null => simp [deleteMesh, Own.root, Own.cells, Store.releaseAll_nil]
  | node a m faces ha hm hfaces hheld =>
    simp only [Own.cells] at hs hnd ⊢
    have hsa : s.heap a = some (.mesh m) := by rw [hs a (by simp), hm]
    have hnd1 := List.nodup_append.mp hnd
    have hloop := forEach_releaseAll deleteFace h faces
      (fun u hu s' hs' hnd' => deleteFace_releases h u (hheld u hu) s' hs' hnd')
      s (fun x hx => hs x (by simp [hx])) hnd1.1
    simp only [deleteMesh, Own.root, ha, if_false, hsa, Mesh.dtor, hfaces, hloop]
    rw [Store.release_eq_releaseAll, Store.releaseAll_append]

theorem Own.depth_le_of_mem {t : Own} {ts : List Own} (ht : t ∈ ts) :
    t.depth ≤ Own.depthOfList ts := by
  induction ts with
  | nil => cases ht
  | cons u us ih =>
    simp only [Own.depthOfList]
    rcases List.mem_cons.mp ht with rfl | h
    · exact le_max_left _ _
    · exact le_trans (ih h) (le_max_right _ _)

theorem deleteObject_releases (h : Heap) (t : Own) (ht : OwnsObject h t) :
    ∀ (fuel : Nat) (s : Store), t.depth < fuel → (∀ a ∈ t.cells, s.heap a = h a) →
      t.cells.Nodup → deleteObject fuel t.root s = .ok (s.releaseAll t.cells) := by
  induction ht with
  | null =>
    intro fuel s hfuel _ _
    cases fuel with
    | zero => simp [Own.depth] at hfuel
    | succ n => simp [deleteObject, Own.root, Own.cells, Store.releaseAll_nil]
  | node a o subs ha ho hsubs _ ih =>
    intro fuel s hfuel hs hnd
    cases fuel with
    | zero => simp at hfuel
    | succ n =>
      simp only [Own.cells] at hs hnd ⊢
      simp only [Own.depth, Nat.add_lt_add_iff_right] at hfuel
      have hsa : s.heap a = some (.object o) := by rw [hs a (by simp), ho]
      have hnd1 := List.nodup_append.mp hnd
      have hloop := forEach_releaseAll (deleteObject n) h subs
        (fun u hu s' hs' hnd' =>
          ih u hu n s' (lt_of_le_of_lt (Own.depth_le_of_mem hu) hfuel) hs' hnd')
        s (fun x hx => hs x (by simp [hx])) hnd1.1
      simp only [deleteObject, Own.root, ha, if_false, hsa, hsubs, hloop]
      rw [Store.write_release, Store.release_eq_releaseAll, Store.releaseAll_append]

theorem Model.dtor_releases (h : Heap) (m : Model) (objs meshes groups mats : List Own)
    (hown : Model.Owns h m objs meshes groups mats) (fuel : Nat)
    (hfuel : Own.depthOfList objs < fuel) (s : Store)
    (hs : ∀ a ∈ Own.cellsOfList (objs ++ meshes ++ groups ++ mats), s.heap a = h a) :
    Model.dtor fuel m s
      = .ok (s.releaseAll (Own.cellsOfList (objs ++ meshes ++ groups ++ mats))) := by
  have hnd := hown.separate
  simp only [Own.cellsOfList_append] at hs hnd ⊢
  have n1 := List.nodup_append.mp hnd
  have n2 := List.nodup_append.mp n1.1
  have n3 := List.nodup_append.mp n2.1
  have e1 := forEach_releaseAll (deleteObject fuel) h objs
    (fun u hu s' hs' hnd' => deleteObject_releases h u (hown.objectsHeld u hu) fuel s'
      (lt_of_le_of_lt (Own.depth_le_of_mem hu) hfuel) hs' hnd')
    s (fun x hx => hs x (by simp [hx])) n3.1
  have e2 := forEach_releaseAll deleteMesh h meshes
    (fun u hu s' hs' hnd' => deleteMesh_releases h u (hown.meshesHeld u hu) s' hs' hnd')
    (s.releaseAll (Own.cellsOfList objs))
    (by
      intro x hx
      have hx1 : x ∉ Own.cellsOfList objs := fun hin => n3.2.2 hin hx
      simp only [Store.releaseAll, hx1, if_false]
      exact hs x (by simp [hx]))
    n3.2.1
  have e3 := forEach_releaseAll deleteIndexArray h groups
    (fun u hu s' hs' _ => deleteIndexArray_releases h u (hown.groupsHeld u hu) s' hs')
    ((s.releaseAll (Own.cellsOfList objs)).releaseAll (Own.cellsOfList meshes))
    (by
      intro x hx
      have hx1 : x ∉ Own.cellsOfList objs := fun hin =>
        n2.2.2 (show x ∈ Own.cellsOfList objs ++ Own.cellsOfList meshes by simp [hin]) hx
      have hx2 : x ∉ Own.cellsOfList meshes := fun hin =>
        n2.2.2 (show x ∈ Own.cellsOfList objs ++ Own.cellsOfList meshes by simp [hin]) hx
      simp only [Store.releaseAll, hx1, hx2, if_false]
      exact hs x (by simp [hx]))
    n2.2.1
  have e4 := forEach_releaseAll deleteMaterial h mats
    (fun u hu s' hs' _ => deleteMaterial_releases h u (hown.materialsHeld u hu) s' hs')
    (((s.releaseAll (Own.cellsOfList objs)).releaseAll (Own.cellsOfList meshes)).releaseAll
      (Own.cellsOfList groups))
    (by
      intro x hx
      have hx1 : x ∉ Own.cellsOfList objs := fun hin =>
        n1.2.2 (show x ∈ Own.cellsOfList objs ++ Own.cellsOfList meshes ++
          Own.cellsOfList groups by simp [hin]) hx
      have hx2 : x ∉ Own.cellsOfList meshes := fun hin =>
        n1.2.2 (show x ∈ Own.cellsOfList objs ++ Own.cellsOfList meshes ++
          Own.cellsOfList groups by simp [hin]) hx
      have hx3 : x ∉ Own.cellsOfList groups := fun hin =>
        n1.2.2 (show x ∈ Own.cellsOfList objs ++ Own.cellsOfList meshes ++
          Own.cellsOfList groups by simp [hin]) hx
      simp only [Store.releaseAll, hx1, hx2, hx3, if_false]
      exact hs x (by simp [hx]))
    n1.2.1
  simp only [Model.dtor, hown.objectsEq, hown.meshesEq, hown.groupsEq, hown.materialsEq,
    e1, e2, e3, e4]
  simp only [Store.releaseAll_append]

/-! ## Which cells a shape covers -/

theorem count_of_nodup {l : List Addr} (hl : l.Nodup) (a : Addr) :
    l.count a = if a ∈ l then 1 else 0 := by
  by_cases h : a ∈ l
  · simp [h, List.count_eq_one_of_mem hl h]
  · simp [h, List.count_eq_zero_of_not_mem h]

theorem Own.root_mem_cells (t : Own) (ht : t.root ≠ NULL) : t.root ∈ t.cells := by
  cases t with
  | null => exact absurd rfl ht
  | node a parts => simp [Own.root, Own.cells]

theorem Own.root_mem_cellsOfList {ts : List Own} {p : Addr} (hp : p ∈ ts.map Own.root)
    (hnull : p ≠ NULL) : p ∈ Own.cellsOfList ts := by
  obtain ⟨t, ht, rfl⟩ := List.mem_map.mp hp
  exact Own.cells_subset_of_mem ht _ (Own.root_mem_cells t hnull)

theorem Own.mem_cellsOfList {ts : List Own} {a : Addr} (ha : a ∈ Own.cellsOfList ts) :
    ∃ t ∈ ts, a ∈ t.cells := by
  induction ts with
  | nil => simp [Own.cellsOfList] at ha
  | cons u us ih =>
    simp only [Own.cellsOfList, List.mem_append] at ha
    rcases ha with h | h
    · exact ⟨u, List.mem_cons_self _ _, h⟩
    · obtain ⟨t, ht, hat⟩ := ih h
      exact ⟨t, List.mem_cons_of_mem _ ht, hat⟩

theorem OwnsIndexArray.cells_are_arrays {h : Heap} {t : Own} (ht : OwnsIndexArray h t) :
    ∀ a ∈ t.cells, ∃ v, h a = some (.indexArray v) := by
  cases ht with
  | null => simp [Own.cells]
  | node a v _ hv =>
    intro x hx
    simp only [Own.cells, Own.cellsOfList, List.nil_append, List.mem_singleton] at hx
    exact ⟨v, hx ▸ hv⟩

theorem OwnsMaterial.cells_are_root {h : Heap} {t : Own} (ht : OwnsMaterial h t) :
    ∀ a ∈ t.cells, a ≠ NULL ∧ a = t.root := by
  cases ht with
  | null => simp [Own.cells]
  | node a v ha _ =>
    intro x hx
    simp only [Own.cells, Own.cellsOfList, List.nil_append, List.mem_singleton] at hx
    subst hx
    exact ⟨ha, rfl⟩

theorem OwnsFace.face_no_material {h : Heap} {t : Own} (ht : OwnsFace h t) :
    ∀ a ∈ t.cells, ∀ mat, h a ≠ some (.material mat) := by
  cases ht with
  | null => simp [Own.cells]
  | node a f tv tn tt _ hf _ _ _ ov onn ot =>
    intro x hx mat
    simp only [Own.cells, Own.cellsOfList, List.append_nil, List.mem_append,
      List.mem_singleton] at hx
    rcases hx with (h1 | h2 | h3) | h4
    · obtain ⟨v, hv⟩ := ov.cells_are_arrays x h1
      simp [hv]
    · obtain ⟨v, hv⟩ := onn.cells_are_arrays x h2
      simp [hv]
    · obtain ⟨v, hv⟩ := ot.cells_are_arrays x h3
      simp [hv]
    · simp [h4, hf]

theorem OwnsMesh.mesh_no_material {h : Heap} {t : Own} (ht : OwnsMesh h t) :
    ∀ a ∈ t.cells, ∀ mat, h a ≠ some (.material mat) := by
  cases ht with
  | null => simp [Own.cells]
  | node a m faces _ hm _ hheld =>
    intro x hx mat
    simp only [Own.cells, List.mem_append, List.mem_singleton] at hx
    rcases hx with h1 | h2
    · obtain ⟨u, hu, hxu⟩ := Own.mem_cellsOfList h1
      exact (hheld u hu).face_no_material x hxu mat
    · simp [h2, hm]

theorem OwnsObject.object_no_material {h : Heap} {t : Own} (ht : OwnsObject h t) :
    ∀ a ∈ t.cells, ∀ mat, h a ≠ some (.material mat) := by
  induction ht with
  | null => simp [Own.cells]
  | node a o subs _ ho _ _ ih =>
    intro x hx mat
    simp only [Own.cells, List.mem_append, List.mem_singleton] at hx
    rcases hx with h1 | h2
    · obtain ⟨u, hu, hxu⟩ := Own.mem_cellsOfList h1
      exact ih u hu x hxu mat
    · simp [h2, ho]

theorem Own.ofPointer_root (p : Addr) : (Own.ofPointer p).root = p := by
  unfold Own.ofPointer
  split
  · next hp => simp [Own.root, hp]
  · simp [Own.root]

theorem Own.ofPointer_cells (p : Addr) :
    (Own.ofPointer p).cells = [p].filter (fun q => q ≠ NULL) := by
  unfold Own.ofPointer
  split
  · next hp => simp [Own.cells, hp]
  · next hp => simp [Own.cells, Own.cellsOfList, hp]

theorem OwnsIndexArray.of_pointer_shape {h : Heap} {p : Addr}
    (hp : p ≠ NULL → ∃ v, h p = some (.indexArray v)) : OwnsIndexArray h (Own.ofPointer p) := by
  unfold Own.ofPointer
  split
  · exact OwnsIndexArray.null
  · next hne =>
    obtain ⟨v, hv⟩ := hp hne
    exact OwnsIndexArray.node p v hne hv

/-! ## Constructors -/

/-- C1: a default-constructed `Material` has diffuse colour (0.6, 0.6, 0.6),
alpha 1.0, shininess 0.0, illumination model 1, index of refraction 1.0, and
`clamp[i] = false` for each of the nine texture types, whatever the members
held before the constructor ran. -/
theorem Material_ctor_defaults (raw : Material) :
    (Material.ctor raw).diffuse = ⟨0.6, 0.6, 0.6⟩ ∧
    (Material.ctor raw).alpha = 1 ∧
    (Material.ctor raw).shineness = 0 ∧
    (Material.ctor raw).illumination_model = 1 ∧
    (Material.ctor raw).ior = 1 ∧
    TextureTypeCount = 9 ∧
    ∀ i : Fin TextureTypeCount, (Material.ctor raw).clamp i = false := by
  refine ⟨rfl, rfl, rfl, rfl, rfl, rfl, ?_⟩
  intro i
  have hi := i.isLt
  simp only [Material.ctor, clearClamp, TextureTypeCount, List.range, List.range.loop,
    List.foldl, setClamp] at hi ⊢
  have : i.val = 0 ∨ i.val = 1 ∨ i.val = 2 ∨ i.val = 3 ∨ i.val = 4 ∨ i.val = 5 ∨
      i.val = 6 ∨ i.val = 7 ∨ i.val = 8 := by omega
  rcases this with h | h | h | h | h | h | h | h | h <;> simp [h]

/-- C2: the `Face` constructor stores the three index-array pointers exactly as
passed.  A field is null exactly when its argument is null, it designates the
same content as its argument, it does not depend on the other arguments, a null
normal pointer is reported as absent while a non-null pointer to an empty vector
is reported as present with no element, and two faces are equal only when all
arguments agree. -/
theorem Face_ctor_stores_index_arrays (h : Heap) (pV pN pT pV' pN' pT' : Addr)
    (pt pt' : aiPrimitiveType) :
    ((Face.ctor pV pN pT pt).m_pVertices = pV ∧
      (Face.ctor pV pN pT pt).m_pNormals = pN ∧
      (Face.ctor pV pN pT pt).m_pTexturCoords = pT) ∧
    (((Face.ctor pV pN pT pt).m_pVertices = NULL ↔ pV = NULL) ∧
      ((Face.ctor pV pN pT pt).m_pNormals = NULL ↔ pN = NULL) ∧
      ((Face.ctor pV pN pT pt).m_pTexturCoords = NULL ↔ pT = NULL)) ∧
    (indexSequence h (Face.ctor pV pN pT pt).m_pVertices = indexSequence h pV ∧
      indexSequence h (Face.ctor pV pN pT pt).m_pNormals = indexSequence h pN ∧
      indexSequence h (Face.ctor pV pN pT pt).m_pTexturCoords = indexSequence h pT) ∧
    ((Face.ctor pV pN pT pt).m_pVertices = (Face.ctor pV pN' pT' pt').m_pVertices ∧
      (Face.ctor pV pN pT pt).m_pNormals = (Face.ctor pV' pN pT' pt').m_pNormals ∧
      (Face.ctor pV pN pT pt).m_pTexturCoords = (Face.ctor pV' pN' pT pt').m_pTexturCoords) ∧
    (indexSequence h (Face.ctor pV NULL pT pt).m_pNormals = none ∧
      indexSequence (fun a => if a = pN + 1 then some (.indexArray []) else h a)
        (Face.ctor pV (pN + 1) pT pt).m_pNormals = some []) ∧
    (Face.ctor pV pN pT pt = Face.ctor pV' pN' pT' pt' ↔
      pV = pV' ∧ pN = pN' ∧ pT = pT' ∧ pt = pt') := by
  refine ⟨⟨rfl, rfl, rfl⟩, ⟨Iff.rfl, Iff.rfl, Iff.rfl⟩, ⟨rfl, rfl, rfl⟩, ⟨rfl, rfl, rfl⟩,
    ⟨?_, ?_⟩, ?_⟩
  · simp [indexSequence, Face.ctor]
  · simp [indexSequence, Face.ctor, NULL]
  · simp only [Face.ctor, Face.mk.injEq, and_true]
    constructor
    · rintro ⟨h1, h2, h3, h4⟩
      exact ⟨h2, h3, h4, h1⟩
    · rintro ⟨h1, h2, h3, h4⟩
      exact ⟨h4, h1, h2, h3⟩

/-- C3: a default-constructed `Mesh` has material index `Mesh::NoMaterial`,
which is the 32-bit value with all bits set, `2 ^ 32 - 1`; it has no faces, a
null material pointer, index count zero, zero in each of the `maxUV` channels
of `m_uiUVCoordinates`, and `m_hasNormals = false`. -/
theorem Mesh_ctor_defaults (maxUV : Nat) (raw : Mesh) :
    (Mesh.ctor maxUV raw).m_uiMaterialIndex = Mesh.NoMaterial ∧
    Mesh.NoMaterial = 2 ^ 32 - 1 ∧
    Mesh.NoMaterial = 0xFFFFFFFF ∧
    (List.range 32).all (fun i => Mesh.NoMaterial.testBit i) = true ∧
    (Mesh.ctor maxUV raw).m_Faces = [] ∧
    (Mesh.ctor maxUV raw).m_pMaterial = NULL ∧
    (Mesh.ctor maxUV raw).m_uiNumIndices = 0 ∧
    (Mesh.ctor maxUV raw).m_uiUVCoordinates.take maxUV = List.replicate maxUV 0 ∧
    (Mesh.ctor maxUV raw).m_hasNormals = false := by
  refine ⟨rfl, by decide, by decide, by decide, rfl, rfl, rfl, ?_, rfl⟩
  simp [Mesh.ctor, memsetZero, List.take_append_eq_append_take]

/-! ## Destruction -/

theorem Demo.owns_object : OwnsObject Demo.heap Demo.objectShape := by
  refine OwnsObject.node 1 _ _ (by decide) rfl rfl ?_
  intro t ht
  simp only [List.mem_cons, List.mem_singleton, List.not_mem_nil, or_false] at ht
  rcases ht with rfl | rfl
  · exact OwnsObject.node 2 _ [] (by decide) rfl rfl (by simp)
  · exact OwnsObject.node 3 _ [] (by decide) rfl rfl (by simp)

theorem Demo.owns_face : OwnsFace Demo.heap Demo.faceShape :=
  OwnsFace.node 5 Demo.face _ _ _ (by decide) rfl rfl rfl rfl
    (OwnsIndexArray.node 6 [0, 1, 2] (by decide) rfl) OwnsIndexArray.null OwnsIndexArray.null

theorem Demo.owns_mesh : OwnsMesh Demo.heap Demo.meshShape := by
  refine OwnsMesh.node 4 Demo.mesh _ (by decide) rfl rfl ?_
  intro t ht
  simp only [List.mem_singleton] at ht
  subst ht
  exact Demo.owns_face

/-- C5: for every finite object tree held by the heap (distinct nodes), the
expression `delete` on its root terminates once the fuel exceeds the depth of
the tree, releases every node of the tree exactly once and touches no other
cell. -/
theorem Object_delete_destroys_subtree_once (t : Own) (s : Store) (fuel : Nat)
    (ht : OwnsObject s.heap t) (hnd : t.cells.Nodup) (hfuel : t.depth < fuel) :
    ∃ s' : Store, deleteObject fuel t.root s = .ok s' ∧
      s'.destroyed = s.destroyed ++ t.cells ∧
      (∀ a, t.cells.count a = if a ∈ t.cells then 1 else 0) ∧
      (∀ a, s'.heap a = if a ∈ t.cells then none else s.heap a) :=
  ⟨s.releaseAll t.cells,
    deleteObject_releases s.heap t ht fuel s hfuel (fun _ _ => rfl) hnd, rfl,
    count_of_nodup hnd, fun _ => rfl⟩

/-- Instance of C5: a root with two distinct children, and a root without
sub-objects. -/
theorem Object_delete_destroys_subtree_once_witness :
    (OwnsObject Demo.store.heap Demo.objectShape ∧ Demo.objectShape.cells.Nodup ∧
      Demo.objectShape.depth < 3 ∧
      ∃ s' : Store, deleteObject 3 1 Demo.store = .ok s' ∧
        s'.destroyed = [] ++ [2, 3, 1] ∧
        (∀ a, [2, 3, 1].count a = if a ∈ [2, 3, 1] then 1 else 0) ∧
        (∀ a, s'.heap a = if a ∈ [2, 3, 1] then none else Demo.heap a)) ∧
    (∃ s' : Store, deleteObject 2 3 Demo.store = .ok s' ∧
        s'.destroyed = [] ++ [3] ∧
        (∀ a, [3].count a = if a ∈ [3] then 1 else 0) ∧
        (∀ a, s'.heap a = if a ∈ [3] then none else Demo.heap a)) :=
  ⟨⟨Demo.owns_object, by decide, by decide,
      Object_delete_destroys_subtree_once Demo.objectShape Demo.store 3 Demo.owns_object
        (by decide) (by decide)⟩,
    Object_delete_destroys_subtree_once (.node 3 []) Demo.store 2
      (OwnsObject.node 3 _ [] (by decide) rfl rfl (by simp)) (by decide) (by decide)⟩

theorem Face.cells_of_pointers (b : Addr) (f : Face) :
    (Own.node b [Own.ofPointer f.m_pVertices, Own.ofPointer f.m_pNormals,
      Own.ofPointer f.m_pTexturCoords]).cells = f.present ++ [b] := by
  simp only [Own.cells, Own.cellsOfList, Own.ofPointer_cells, Face.present, List.append_nil]
  by_cases h1 : f.m_pVertices = NULL <;> by_cases h2 : f.m_pNormals = NULL <;>
    by_cases h3 : f.m_pTexturCoords = NULL <;> simp [List.filter, h1, h2, h3]

theorem Face.owns_of_pointers {h : Heap} {b : Addr} {f : Face} (hb : b ≠ NULL)
    (hf : h b = some (.face f)) (harr : ∀ p ∈ f.present, ∃ v, h p = some (.indexArray v)) :
    OwnsFace h (Own.node b [Own.ofPointer f.m_pVertices, Own.ofPointer f.m_pNormals,
      Own.ofPointer f.m_pTexturCoords]) := by
  refine OwnsFace.node b f _ _ _ hb hf (Own.ofPointer_root _) (Own.ofPointer_root _)
    (Own.ofPointer_root _) ?_ ?_ ?_
  · exact OwnsIndexArray.of_pointer_shape (fun hne => harr _ (by simp [Face.present, hne]))
  · exact OwnsIndexArray.of_pointer_shape (fun hne => harr _ (by simp [Face.present, hne]))
  · exact OwnsIndexArray.of_pointer_shape (fun hne => harr _ (by simp [Face.present, hne]))

/-- C6: deleting a mesh whose faces are held by the heap (no cell shared)
releases every face listed in `m_Faces` exactly once, together with what the
faces own and the mesh itself; deleting a face releases exactly those of its
three index arrays whose pointer is not null, then the face, and succeeds
whichever of the three pointers are null. -/
theorem Mesh_and_Face_delete_release_owned (s : Store)
    (a : Addr) (m : Mesh) (faces : List Own)
    (ha : a ≠ NULL) (hm : s.heap a = some (.mesh m)) (hfaces : m.m_Faces = faces.map Own.root)
    (hheld : ∀ t ∈ faces, OwnsFace s.heap t) (hnd : (Own.cellsOfList faces ++ [a]).Nodup)
    (b : Addr) (f : Face) (hb : b ≠ NULL) (hf : s.heap b = some (.face f))
    (harr : ∀ p ∈ f.present, ∃ v, s.heap p = some (.indexArray v))
    (hpres : f.present.Nodup) :
    (∃ s' : Store, deleteMesh a s = .ok s' ∧
      s'.destroyed = s.destroyed ++ (Own.cellsOfList faces ++ [a]) ∧
      (∀ p ∈ m.m_Faces, p ≠ NULL → (Own.cellsOfList faces ++ [a]).count p = 1) ∧
      (∀ x, (Own.cellsOfList faces ++ [a]).count x ≤ 1) ∧
      (∀ x, s'.heap x = if x ∈ Own.cellsOfList faces ++ [a] then none else s.heap x)) ∧
    (∃ s' : Store, deleteFace b s = .ok s' ∧
      s'.destroyed = s.destroyed ++ (f.present ++ [b]) ∧
      (∀ x, (f.present ++ [b]).count x = if x ∈ f.present ++ [b] then 1 else 0) ∧
      (∀ x, s'.heap x = if x ∈ f.present ++ [b] then none else s.heap x)) := by
  constructor
  · refine ⟨s.releaseAll (Own.cellsOfList faces ++ [a]), ?_, rfl, ?_, ?_, fun _ => rfl⟩
    · have := deleteMesh_releases s.heap (.node a faces)
        (OwnsMesh.node a m faces ha hm hfaces hheld) s (fun _ _ => rfl)
        (by simpa [Own.cells] using hnd)
      simpa [Own.cells, Own.root] using this
    · intro p hp hne
      rw [hfaces] at hp
      exact List.count_eq_one_of_mem hnd
        (List.mem_append_left _ (Own.root_mem_cellsOfList hp hne))
    · intro x
      exact List.nodup_iff_count_le_one.mp hnd x
  · have hbp : b ∉ f.present := by
      intro hin
      obtain ⟨v, hv⟩ := harr b hin
      rw [hf] at hv
      cases hv
    have hnd' : (f.present ++ [b]).Nodup := by
      refine List.nodup_append.mpr ⟨hpres, List.nodup_singleton b, ?_⟩
      intro x hx hxb
      exact hbp (List.mem_singleton.mp hxb ▸ hx)
    refine ⟨s.releaseAll (f.present ++ [b]), ?_, rfl, count_of_nodup hnd', fun _ => rfl⟩
    have := deleteFace_releases s.heap _ (Face.owns_of_pointers hb hf harr) s
      (fun _ _ => rfl) (by rw [Face.cells_of_pointers]; exact hnd')
    rw [Face.cells_of_pointers] at this
    simpa [Own.root] using this

/-- Instance of C6: the mesh of the scene with its single face, whose normal
and texture-coordinate pointers are null. -/
theorem Mesh_and_Face_delete_release_owned_witness :
    (∃ s' : Store, deleteMesh 4 Demo.store = .ok s' ∧
      s'.destroyed = [] ++ ([6, 5] ++ [4]) ∧
      (∀ p ∈ [5], p ≠ NULL → ([6, 5] ++ [4]).count p = 1) ∧
      (∀ x, ([6, 5] ++ [4]).count x ≤ 1) ∧
      (∀ x, s'.heap x = if x ∈ [6, 5] ++ [4] then none else Demo.heap x)) ∧
    (∃ s' : Store, deleteFace 5 Demo.store = .ok s' ∧
      s'.destroyed = [] ++ ([6] ++ [5]) ∧
      (∀ x, ([6] ++ [5]).count x = if x ∈ [6] ++ [5] then 1 else 0) ∧
      (∀ x, s'.heap x = if x ∈ [6] ++ [5] then none else Demo.heap x)) :=
  Mesh_and_Face_delete_release_owned Demo.store 4 Demo.mesh [Demo.faceShape]
    (by decide) rfl rfl
    (by
      intro t ht
      simp only [List.mem_singleton] at ht
      subst ht
      exact Demo.owns_face)
    (by decide) 5 Demo.face (by decide) rfl
    (by
      intro p hp
      have : p = 6 := by simpa [Face.present, Demo.face, Face.ctor3, Face.ctor, NULL] using hp
      subst this
      exact ⟨[0, 1, 2], rfl⟩)
    (by decide)

theorem Demo.owns_model :
    Model.Owns Demo.heap Demo.model [Demo.objectShape] [Demo.meshShape] [.node 7 []]
      [.node 8 []] where
  objectsEq := rfl
  objectsHeld := by
    intro t ht
    simp only [List.mem_singleton] at ht
    subst ht
    exact Demo.owns_object
  meshesEq := rfl
  meshesHeld := by
    intro t ht
    simp only [List.mem_singleton] at ht
    subst ht
    exact Demo.owns_mesh
  groupsEq := rfl
  groupsHeld := by
    intro t ht
    simp only [List.mem_singleton] at ht
    subst ht
    exact OwnsIndexArray.node 7 [0] (by decide) rfl
  materialsEq := rfl
  materialsHeld := by
    intro t ht
    simp only [List.mem_singleton] at ht
    subst ht
    exact OwnsMaterial.node 8 _ (by decide) rfl
  separate := by decide

/-- Without the separation premise the destructor has undefined behaviour: a
model that lists the object at address 2 twice deletes it twice. -/
theorem Demo.shared_object_is_deleted_twice :
    Model.dtor 3 { Demo.model with m_Objects := [2, 2] } Demo.store
      = .error .invalidDelete := by
  rfl

/-- C4: when the model owns, in the heap, the object trees behind `m_Objects`,
the meshes behind `m_Meshes` with their faces, the group vectors of `m_Groups`
and the materials of `m_MaterialMap` (any of the four may be empty, no cell is
shared), the destructor terminates, releases every owned cell exactly once and
no other cell; the result does not depend on the five cursor members, and the
destructor of a freshly constructed model releases nothing. -/
theorem Model_dtor_destroys_owned_once (m : Model) (objs meshes groups mats : List Own)
    (s : Store) (fuel : Nat) (hown : Model.Owns s.heap m objs meshes groups mats)
    (hfuel : Own.depthOfList objs < fuel) (c₁ c₂ c₃ c₄ c₅ : Addr) :
    ∃ s' : Store, Model.dtor fuel m s = .ok s' ∧
      s'.destroyed = s.destroyed ++ Own.cellsOfList (objs ++ meshes ++ groups ++ mats) ∧
      (∀ a, (Own.cellsOfList (objs ++ meshes ++ groups ++ mats)).count a
        = if a ∈ Own.cellsOfList (objs ++ meshes ++ groups ++ mats) then 1 else 0) ∧
      (∀ a, s'.heap a
        = if a ∈ Own.cellsOfList (objs ++ meshes ++ groups ++ mats) then none else s.heap a) ∧
      (∀ p ∈ m.m_Objects ++ m.m_Meshes ++ m.m_Groups.map Prod.snd ++
          m.m_MaterialMap.map Prod.snd,
        p ≠ NULL → (Own.cellsOfList (objs ++ meshes ++ groups ++ mats)).count p = 1) ∧
      Model.dtor fuel
        { m with m_pCurrent := c₁, m_pCurrentMaterial := c₂, m_pDefaultMaterial := c₃,
                 m_pCurrentMesh := c₄, m_pGroupFaceIDs := c₅ } s = .ok s' ∧
      Model.dtor fuel Model.ctor s = .ok s := by
  have hrun := Model.dtor_releases s.heap m objs meshes groups mats hown fuel hfuel s
    (fun _ _ => rfl)
  refine ⟨_, hrun, rfl, count_of_nodup hown.separate, fun _ => rfl, ?_, hrun, ?_⟩
  · intro p hp hne
    apply List.count_eq_one_of_mem hown.separate
    rw [hown.objectsEq, hown.meshesEq, hown.groupsEq, hown.materialsEq,
      ← List.map_append, ← List.map_append, ← List.map_append] at hp
    exact Own.root_mem_cellsOfList hp hne
  · simp [Model.dtor, Model.ctor, forEach]

/-- Instance of C4: the scene, whose five cursors all point at owned cells. -/
theorem Model_dtor_destroys_owned_once_witness :
    Model.Owns Demo.store.heap Demo.model [Demo.objectShape] [Demo.meshShape] [.node 7 []]
      [.node 8 []] ∧
    Own.depthOfList [Demo.objectShape] < 3 ∧
    ∃ s' : Store, Model.dtor 3 Demo.model Demo.store = .ok s' ∧
      s'.destroyed = [] ++ [2, 3, 1, 6, 5, 4, 7, 8] ∧
      (∀ a, [2, 3, 1, 6, 5, 4, 7, 8].count a
        = if a ∈ [2, 3, 1, 6, 5, 4, 7, 8] then 1 else 0) ∧
      (∀ a, s'.heap a = if a ∈ [2, 3, 1, 6, 5, 4, 7, 8] then none else Demo.heap a) ∧
      (∀ p ∈ [1] ++ [4] ++ [7] ++ [8],
        p ≠ NULL → [2, 3, 1, 6, 5, 4, 7, 8].count p = 1) ∧
      Model.dtor 3
        { Demo.model with m_pCurrent := 0, m_pCurrentMaterial := 0, m_pDefaultMaterial := 0,
                          m_pCurrentMesh := 0, m_pGroupFaceIDs := 0 } Demo.store = .ok s' ∧
      Model.dtor 3 Model.ctor Demo.store = .ok Demo.store :=
  ⟨Demo.owns_model, by decide,
    Model_dtor_destroys_owned_once Demo.model [Demo.objectShape] [Demo.meshShape]
      [.node 7 []] [.node 8 []] Demo.store 3 Demo.owns_model (by decide) 0 0 0 0 0⟩

theorem Model.owned_material_iff {h : Heap} {m : Model} {objs meshes groups mats : List Own}
    (hown : Model.Owns h m objs meshes groups mats) {a : Addr} {mat : Material}
    (ha : h a = some (.material mat)) (hne : a ≠ NULL) :
    a ∉ Own.cellsOfList (objs ++ meshes ++ groups) ∧
    (a ∈ Own.cellsOfList mats ↔ a ∈ m.m_MaterialMap.map Prod.snd) := by
  constructor
  · intro hin
    obtain ⟨t, ht, hat⟩ := Own.mem_cellsOfList hin
    simp only [List.mem_append] at ht
    rcases ht with (h1 | h2) | h3
    · exact (hown.objectsHeld t h1).object_no_material a hat mat ha
    · exact (hown.meshesHeld t h2).mesh_no_material a hat mat ha
    · obtain ⟨v, hv⟩ := (hown.groupsHeld t h3).cells_are_arrays a hat
      rw [ha] at hv
      cases hv
  · rw [hown.materialsEq]
    constructor
    · intro hin
      obtain ⟨t, ht, hat⟩ := Own.mem_cellsOfList hin
      have := ((hown.materialsHeld t ht).cells_are_root a hat).2
      exact List.mem_map.mpr ⟨t, ht, this.symm⟩
    · intro hin
      exact Own.root_mem_cellsOfList hin hne

/-- C7: a material cell is not among the cells that deleting a face or a mesh
releases, whether or not their `m_pMaterial` points at it: it stays in the heap
unchanged.  In the model destructor the first three loops (objects, meshes,
groups) do not release it either; it is released, in the last loop, exactly when
`m_MaterialMap` lists its address.  The delete expressions of `Face` and `Mesh`
act on the store only, so the material map of the model is not touched. -/
theorem Material_released_only_through_MaterialMap (s : Store) (tf tm : Own)
    (hf : OwnsFace s.heap tf) (hfn : tf.cells.Nodup)
    (hm : OwnsMesh s.heap tm) (hmn : tm.cells.Nodup)
    (m : Model) (objs meshes groups mats : List Own) (fuel : Nat)
    (hown : Model.Owns s.heap m objs meshes groups mats)
    (hfuel : Own.depthOfList objs < fuel)
    (a : Addr) (mat : Material) (ha : s.heap a = some (.material mat)) (hne : a ≠ NULL) :
    (∃ (s' : Store) (l : List Addr), deleteFace tf.root s = .ok s' ∧
      s'.destroyed = s.destroyed ++ l ∧ a ∉ l ∧ s'.heap a = some (.material mat)) ∧
    (∃ (s' : Store) (l : List Addr), deleteMesh tm.root s = .ok s' ∧
      s'.destroyed = s.destroyed ++ l ∧ a ∉ l ∧ s'.heap a = some (.material mat)) ∧
    (∃ (s' : Store) (l : List Addr), Model.dtor fuel m s = .ok s' ∧
      s'.destroyed = s.destroyed ++ (l ++ Own.cellsOfList mats) ∧ a ∉ l ∧
      (a ∈ Own.cellsOfList mats ↔ a ∈ m.m_MaterialMap.map Prod.snd) ∧
      (Own.cellsOfList mats).count a ≤ 1 ∧
      (s'.heap a = none ↔ a ∈ m.m_MaterialMap.map Prod.snd) ∧
      (a ∉ m.m_MaterialMap.map Prod.snd → s'.heap a = some (.material mat))) := by
  have hfa : a ∉ tf.cells := fun hin => hf.face_no_material a hin mat ha
  have hma : a ∉ tm.cells := fun hin => hm.mesh_no_material a hin mat ha
  refine ⟨⟨s.releaseAll tf.cells, tf.cells,
      deleteFace_releases s.heap tf hf s (fun _ _ => rfl) hfn, rfl, hfa, ?_⟩,
    ⟨s.releaseAll tm.cells, tm.cells,
      deleteMesh_releases s.heap tm hm s (fun _ _ => rfl) hmn, rfl, hma, ?_⟩, ?_⟩
  · simp [Store.releaseAll, hfa, ha]
  · simp [Store.releaseAll, hma, ha]
  · obtain ⟨hpre, hiff⟩ := Model.owned_material_iff hown ha hne
    have hnd := hown.separate
    rw [Own.cellsOfList_append] at hnd
    refine ⟨s.releaseAll (Own.cellsOfList (objs ++ meshes ++ groups ++ mats)),
      Own.cellsOfList (objs ++ meshes ++ groups),
      Model.dtor_releases s.heap m objs meshes groups mats hown fuel hfuel s (fun _ _ => rfl),
      ?_, hpre, hiff, List.nodup_iff_count_le_one.mp (List.nodup_append.mp hnd).2.1 a, ?_, ?_⟩
    · simp [Store.releaseAll, Own.cellsOfList_append]
    · rw [← hiff]
      simp only [Store.releaseAll, Own.cellsOfList_append (objs ++ meshes ++ groups) mats,
        List.mem_append, hpre, false_or]
      by_cases hin : a ∈ Own.cellsOfList mats <;> simp [hin, ha]
    · intro hnot
      have hin : a ∉ Own.cellsOfList mats := fun h' => hnot (hiff.mp h')
      have hall : a ∉ Own.cellsOfList (objs ++ meshes ++ groups ++ mats) := by
        rw [Own.cellsOfList_append (objs ++ meshes ++ groups) mats, List.mem_append]
        exact fun h' => h'.elim hpre hin
      show (if a ∈ Own.cellsOfList (objs ++ meshes ++ groups ++ mats) then none
        else s.heap a) = _
      rw [if_neg hall, ha]

/-- Instance of C7: in the scene the material at address 8 is referenced by the
face at 5 and the mesh at 4 and listed in the material map. -/
theorem Material_released_only_through_MaterialMap_witness :
    Demo.face.m_pMaterial = 8 ∧ Demo.mesh.m_pMaterial = 8 ∧
    (∃ (s' : Store) (l : List Addr), deleteFace 5 Demo.store = .ok s' ∧
      s'.destroyed = [] ++ l ∧ 8 ∉ l ∧
      s'.heap 8 = some (.material (Material.ctor Demo.rawMaterial))) ∧
    (∃ (s' : Store) (l : List Addr), deleteMesh 4 Demo.store = .ok s' ∧
      s'.destroyed = [] ++ l ∧ 8 ∉ l ∧
      s'.heap 8 = some (.material (Material.ctor Demo.rawMaterial))) ∧
    (∃ (s' : Store) (l : List Addr), Model.dtor 3 Demo.model Demo.store = .ok s' ∧
      s'.destroyed = [] ++ (l ++ [8]) ∧ 8 ∉ l ∧
      (8 ∈ [8] ↔ 8 ∈ [8]) ∧
      [8].count 8 ≤ 1 ∧
      (s'.heap 8 = none ↔ 8 ∈ [8]) ∧
      (8 ∉ [8] → s'.heap 8 = some (.material (Material.ctor Demo.rawMaterial)))) :=
  ⟨rfl, rfl,
    Material_released_only_through_MaterialMap Demo.store Demo.faceShape Demo.meshShape
      Demo.owns_face (by decide) Demo.owns_mesh (by decide) Demo.model [Demo.objectShape]
      [Demo.meshShape] [.node 7 []] [.node 8 []] 3 Demo.owns_model (by decide) 8
      (Material.ctor Demo.rawMaterial) rfl (by decide)⟩

/-! ## Buffers and the material map -/

theorem Model.calls_length (cs : List AddCall) :
    ∀ m : Model, (m.calls cs).1.length = cs.length := by
  induction cs with
  | nil => intro m; rfl
  | cons c cs ih => intro m; simp [Model.calls, ih]

theorem Model.bufferLength_call (m : Model) (c d : AddCall) :
    (m.call c).2.bufferLength d = m.bufferLength d + if d.sameBuffer c then 1 else 0 := by
  cases c <;> cases d <;>
    simp [Model.call, Model.AddVertex, Model.AddNormal, Model.AddTexCoord, Model.bufferLength,
      AddCall.sameBuffer]

theorem Model.call_fst (m : Model) (c : AddCall) : (m.call c).1 = m.bufferLength c := by
  cases c <;> rfl

theorem Model.calls_index (cs : List AddCall) :
    ∀ (m : Model) (k : Nat) (c : AddCall), cs.get? k = some c →
      (m.calls cs).1.get? k
        = some (m.bufferLength c + ((cs.take k).filter (fun d => c.sameBuffer d)).length) := by
  induction cs with
  | nil => intro m k c hk; simp at hk
  | cons c₀ cs ih =>
    intro m k c hk
    cases k with
    | zero =>
      simp only [List.get?_cons_zero, Option.some.injEq] at hk
      subst hk
      simp [Model.calls, Model.call_fst]
    | succ k =>
      simp only [List.get?_cons_succ] at hk
      simp only [Model.calls, List.get?_cons_succ, ih _ k c hk, Model.bufferLength_call,
        List.take_succ_cons, List.filter_cons]
      by_cases hsame : c.sameBuffer c₀ = true
      · simp [hsame]; omega
      · simp [hsame]

theorem Model.calls_bufferLength (cs : List AddCall) :
    ∀ (m : Model) (d : AddCall),
      (m.calls cs).2.bufferLength d
        = m.bufferLength d + (cs.filter (fun c => d.sameBuffer c)).length := by
  induction cs with
  | nil => intro m d; simp [Model.calls]
  | cons c₀ cs ih =>
    intro m d
    simp only [Model.calls, ih, Model.bufferLength_call, List.filter_cons]
    by_cases hsame : d.sameBuffer c₀ = true
    · simp [hsame]; omega
    · simp [hsame]

theorem Model.calls_vertex (vs : List Vector3f) :
    ∀ m : Model, (m.calls (vs.map AddCall.vertex)).1
        = List.range' m.m_Vertices.length vs.length ∧
      (m.calls (vs.map AddCall.vertex)).2.m_Vertices = m.m_Vertices ++ vs := by
  induction vs with
  | nil => intro m; simp [Model.calls]
  | cons v vs ih =>
    intro m
    have h := ih (m.call (.vertex v)).2
    simp only [List.map_cons, Model.calls, h.1, h.2, List.length_cons, List.range'_succ]
    simp [Model.call, Model.AddVertex]

theorem Model.calls_normal (vs : List Vector3f) :
    ∀ m : Model, (m.calls (vs.map AddCall.normal)).1
        = List.range' m.m_Normals.length vs.length ∧
      (m.calls (vs.map AddCall.normal)).2.m_Normals = m.m_Normals ++ vs := by
  induction vs with
  | nil => intro m; simp [Model.calls]
  | cons v vs ih =>
    intro m
    have h := ih (m.call (.normal v)).2
    simp only [List.map_cons, Model.calls, h.1, h.2, List.length_cons, List.range'_succ]
    simp [Model.call, Model.AddNormal]

theorem Model.calls_texCoord (vs : List Vector3f) :
    ∀ m : Model, (m.calls (vs.map AddCall.texCoord)).1
        = List.range' m.m_TextureCoord.length vs.length ∧
      (m.calls (vs.map AddCall.texCoord)).2.m_TextureCoord = m.m_TextureCoord ++ vs := by
  induction vs with
  | nil => intro m; simp [Model.calls]
  | cons v vs ih =>
    intro m
    have h := ih (m.call (.texCoord v)).2
    simp only [List.map_cons, Model.calls, h.1, h.2, List.length_cons, List.range'_succ]
    simp [Model.call, Model.AddTexCoord]

/-- C9: starting from a model whose three buffers are empty, the calls of a
sequence of `AddVertex` calls return 0, 1, 2, ... (each the length of
`m_Vertices` just before the call) and after `N` calls `m_Vertices` holds the
`N` vertices; the same for `AddNormal` on `m_Normals` and `AddTexCoord` on
`m_TextureCoord`.  When calls of the three kinds are mixed, each call still
returns the number of earlier calls of its own kind, and each buffer ends with
as many elements as there were calls of its kind. -/
theorem AddVertex_returns_position (m other : Model) (hV : m.m_Vertices = [])
    (hN : m.m_Normals = []) (hT : m.m_TextureCoord = [])
    (vs : List Vector3f) (cs : List AddCall) (v : Vector3f) :
    ((other.AddVertex v).1 = other.m_Vertices.length ∧
      (other.AddNormal v).1 = other.m_Normals.length ∧
      (other.AddTexCoord v).1 = other.m_TextureCoord.length) ∧
    ((m.calls (vs.map AddCall.vertex)).1 = List.range vs.length ∧
      (m.calls (vs.map AddCall.vertex)).2.m_Vertices = vs ∧
      (m.calls (vs.map AddCall.vertex)).2.m_Vertices.length = vs.length) ∧
    ((m.calls (vs.map AddCall.normal)).1 = List.range vs.length ∧
      (m.calls (vs.map AddCall.normal)).2.m_Normals = vs ∧
      (m.calls (vs.map AddCall.normal)).2.m_Normals.length = vs.length) ∧
    ((m.calls (vs.map AddCall.texCoord)).1 = List.range vs.length ∧
      (m.calls (vs.map AddCall.texCoord)).2.m_TextureCoord = vs ∧
      (m.calls (vs.map AddCall.texCoord)).2.m_TextureCoord.length = vs.length) ∧
    (∀ (k : Nat) (c : AddCall), cs.get? k = some c →
      (m.calls cs).1.get? k
        = some ((cs.take k).filter (fun d => c.sameBuffer d)).length) ∧
    (∀ d : AddCall,
      (m.calls cs).2.bufferLength d = (cs.filter (fun c => d.sameBuffer c)).length) := by
  have e1 := Model.calls_vertex vs m
  have e2 := Model.calls_normal vs m
  have e3 := Model.calls_texCoord vs m
  rw [hV] at e1
  rw [hN] at e2
  rw [hT] at e3
  have hlen : ∀ d : AddCall, m.bufferLength d = 0 := by
    intro d
    cases d <;> simp [Model.bufferLength, hV, hN, hT]
  refine ⟨⟨rfl, rfl, rfl⟩, ⟨?_, ?_, ?_⟩, ⟨?_, ?_, ?_⟩, ⟨?_, ?_, ?_⟩, ?_, ?_⟩
  · rw [e1.1, List.range_eq_range']; rfl
  · rw [e1.2]; rfl
  · rw [e1.2]; rfl
  · rw [e2.1, List.range_eq_range']; rfl
  · rw [e2.2]; rfl
  · rw [e2.2]; rfl
  · rw [e3.1, List.range_eq_range']; rfl
  · rw [e3.2]; rfl
  · rw [e3.2]; rfl
  · intro k c hk
    rw [Model.calls_index cs m k c hk, hlen, Nat.zero_add]
  · intro d
    rw [Model.calls_bufferLength cs m d, hlen, Nat.zero_add]

/-- Instance of C9: a freshly constructed model, two vertices, and a mixed
sequence of three calls. -/
theorem AddVertex_returns_position_witness :
    (Model.ctor.m_Vertices = [] ∧ Model.ctor.m_Normals = [] ∧
      Model.ctor.m_TextureCoord = []) ∧
    (Model.ctor.calls [.vertex ⟨1, 2, 3⟩, .vertex ⟨4, 5, 6⟩]).1 = [0, 1] ∧
    (Model.ctor.calls [.vertex ⟨1, 2, 3⟩, .vertex ⟨4, 5, 6⟩]).2.m_Vertices.length = 2 ∧
    (Model.ctor.calls [.vertex ⟨1, 2, 3⟩, .normal ⟨0, 0, 1⟩, .vertex ⟨4, 5, 6⟩]).1
      = [0, 0, 1] :=
  have h := AddVertex_returns_position Model.ctor Model.ctor rfl rfl rfl
    [⟨1, 2, 3⟩, ⟨4, 5, 6⟩] [.vertex ⟨1, 2, 3⟩, .normal ⟨0, 0, 1⟩, .vertex ⟨4, 5, 6⟩] ⟨0, 0, 0⟩
  ⟨⟨rfl, rfl, rfl⟩, h.2.1.1, h.2.1.2.2, rfl⟩

theorem lookup_cons_eq (k : String_c) (e : String_c × Addr) (l : List (String_c × Addr)) :
    (e :: l).lookup k = if k = e.1 then some e.2 else l.lookup k := by
  obtain ⟨k', v'⟩ := e
  rw [List.lookup_cons]
  by_cases h : k = k'
  · simp [h]
  · have : (k == k') = false := by simpa using h
    simp [h, this]

theorem lookup_mapInsert_self (k : String_c) (v : Addr) (l : List (String_c × Addr))
    (h : l.lookup k = none) : (mapInsert k v l).lookup k = some v := by
  induction l with
  | nil => simp [mapInsert, lookup_cons_eq]
  | cons e rest ih =>
    rw [lookup_cons_eq] at h
    by_cases hk : k = e.1
    · simp [hk] at h
    · simp only [hk, if_false] at h
      simp only [mapInsert]
      split
      · simp [lookup_cons_eq]
      · simp [lookup_cons_eq, hk, ih h]

theorem lookup_mapInsert_ne (k k' : String_c) (v : Addr) (l : List (String_c × Addr))
    (h : k' ≠ k) : (mapInsert k v l).lookup k' = l.lookup k' := by
  induction l with
  | nil => simp [mapInsert, lookup_cons_eq, h]
  | cons e rest ih =>
    simp only [mapInsert]
    split
    · simp [lookup_cons_eq, h]
    · simp [lookup_cons_eq, ih]

theorem entries_mapInsert (k n : String_c) (v : Addr) (l : List (String_c × Addr)) :
    ((mapInsert k v l).filter (fun e => e.1 = n)).length
      = (l.filter (fun e => e.1 = n)).length + if k = n then 1 else 0 := by
  induction l with
  | nil => by_cases h : k = n <;> simp [mapInsert, List.filter, h]
  | cons e rest ih =>
    simp only [mapInsert]
    split
    · by_cases h : k = n <;> simp [List.filter_cons, h]
    · by_cases h : e.1 = n
      · simp [List.filter_cons, h, ih]
        omega
      · simp [List.filter_cons, h, ih]

theorem entries_of_lookup_none (k : String_c) (l : List (String_c × Addr))
    (h : l.lookup k = none) : (l.filter (fun e => e.1 = k)).length = 0 := by
  induction l with
  | nil => rfl
  | cons e rest ih =>
    rw [lookup_cons_eq] at h
    by_cases hk : k = e.1
    · simp [hk] at h
    · simp only [hk, if_false] at h
      have hk' : ¬ e.1 = k := fun h' => hk h'.symm
      simp [List.filter_cons, hk', ih h]

theorem entries_of_not_mem (k : String_c) (l : List (String_c × Addr))
    (h : k ∉ l.map Prod.fst) : (l.filter (fun e => e.1 = k)).length = 0 := by
  induction l with
  | nil => rfl
  | cons e rest ih =>
    simp only [List.map_cons, List.mem_cons, not_or] at h
    have hk' : ¬ e.1 = k := fun h' => h.1 h'.symm
    simp [List.filter_cons, hk', ih h.2]

theorem entries_of_lookup_some (k : String_c) (p : Addr) (l : List (String_c × Addr))
    (h : l.lookup k = some p) (hnd : (l.map Prod.fst).Nodup) :
    (l.filter (fun e => e.1 = k)).length = 1 := by
  induction l with
  | nil => simp at h
  | cons e rest ih =>
    rw [lookup_cons_eq] at h
    simp only [List.map_cons, List.nodup_cons] at hnd
    by_cases hk : k = e.1
    · subst hk
      simp [List.filter_cons, entries_of_not_mem _ rest hnd.1]
    · simp only [hk, if_false] at h
      have hk' : ¬ e.1 = k := fun h' => hk h'.symm
      simp [List.filter_cons, hk', ih h hnd.2]

/-- C10: when the keys of the material map are distinct, two calls of
`GetOrCreateMaterial` with the same name return the same address, the second
call changes neither the model nor the store (it constructs nothing), and the
map then holds exactly one entry for the name, which maps to the returned
address.  Lookup is by exact string equality: the entry found for any other
name, however similar, is what it was before the calls. -/
theorem GetOrCreateMaterial_twice_same_instance (m : Model) (name another : String_c)
    (fresh₁ fresh₂ : Addr) (raw₁ raw₂ : Material) (s : Store)
    (hkeys : (m.m_MaterialMap.map Prod.fst).Nodup) (hne : another ≠ name) :
    ((m.GetOrCreateMaterial name fresh₁ raw₁ s).2.1.GetOrCreateMaterial name fresh₂ raw₂
        (m.GetOrCreateMaterial name fresh₁ raw₁ s).2.2).1
      = (m.GetOrCreateMaterial name fresh₁ raw₁ s).1 ∧
    ((m.GetOrCreateMaterial name fresh₁ raw₁ s).2.1.GetOrCreateMaterial name fresh₂ raw₂
        (m.GetOrCreateMaterial name fresh₁ raw₁ s).2.2).2
      = (m.GetOrCreateMaterial name fresh₁ raw₁ s).2 ∧
    (m.GetOrCreateMaterial name fresh₁ raw₁ s).2.1.materialEntries name = 1 ∧
    (m.GetOrCreateMaterial name fresh₁ raw₁ s).2.1.m_MaterialMap.lookup name
      = some (m.GetOrCreateMaterial name fresh₁ raw₁ s).1 ∧
    (m.GetOrCreateMaterial name fresh₁ raw₁ s).2.1.m_MaterialMap.lookup another
      = m.m_MaterialMap.lookup another ∧
    (m.GetOrCreateMaterial name fresh₁ raw₁ s).2.1.materialEntries another
      = m.materialEntries another := by
  cases hlook : m.m_MaterialMap.lookup name with
  | some p =>
    have e1 : m.GetOrCreateMaterial name fresh₁ raw₁ s = (p, m, s) := by
      simp [Model.GetOrCreateMaterial, hlook]
    rw [e1]
    refine ⟨?_, ?_, ?_, hlook, rfl, rfl⟩
    · simp [Model.GetOrCreateMaterial, hlook]
    · simp [Model.GetOrCreateMaterial, hlook]
    · exact entries_of_lookup_some name p _ hlook hkeys
  | none =>
    have e1 : m.GetOrCreateMaterial name fresh₁ raw₁ s
        = (fresh₁, { m with m_MaterialMap := mapInsert name fresh₁ m.m_MaterialMap },
            s.write fresh₁ (.material (Material.ctor raw₁))) := by
      simp [Model.GetOrCreateMaterial, hlook]
    rw [e1]
    have hself := lookup_mapInsert_self name fresh₁ m.m_MaterialMap hlook
    refine ⟨?_, ?_, ?_, hself, lookup_mapInsert_ne name another fresh₁ _ hne, ?_⟩
    · simp [Model.GetOrCreateMaterial, hself]
    · simp [Model.GetOrCreateMaterial, hself]
    · simp [Model.materialEntries, entries_mapInsert, entries_of_lookup_none name _ hlook]
    · have hne' : ¬ name = another := fun h' => hne h'.symm
      simp [Model.materialEntries, entries_mapInsert, hne']

/-- Instance of C10: on a freshly constructed model the name `"Wood"` is
created once; `"wood"` stays unknown. -/
theorem GetOrCreateMaterial_twice_same_instance_witness :
    (Model.ctor.m_MaterialMap.map Prod.fst).Nodup ∧ "wood" ≠ "Wood" ∧
    ((Model.ctor.GetOrCreateMaterial "Wood" 8 Demo.rawMaterial ⟨fun _ => none, []⟩).2.1
        |>.GetOrCreateMaterial "Wood" 9 Demo.rawMaterial
          (Model.ctor.GetOrCreateMaterial "Wood" 8 Demo.rawMaterial ⟨fun _ => none, []⟩).2.2).1
      = 8 ∧
    (Model.ctor.GetOrCreateMaterial "Wood" 8 Demo.rawMaterial
        ⟨fun _ => none, []⟩).2.1.materialEntries "Wood" = 1 ∧
    (Model.ctor.GetOrCreateMaterial "Wood" 8 Demo.rawMaterial
        ⟨fun _ => none, []⟩).2.1.m_MaterialMap.lookup "wood" = none :=
  have h := GetOrCreateMaterial_twice_same_instance Model.ctor "Wood" "wood" 8 9
    Demo.rawMaterial Demo.rawMaterial ⟨fun _ => none, []⟩ (by decide) (by decide)
  ⟨by decide, by decide, h.1, h.2.2.1, h.2.2.2.2.1⟩

end objfile

/-! ## Copying a file into a buffer -/

namespace fileio

theorem toSizeT_cast (bits : Nat) (n : Int) : (toSizeT bits n : Int) = n % 2 ^ bits := by
  unfold toSizeT
  exact Int.toNat_of_nonneg (Int.emod_nonneg _ (by positivity))

theorem toSizeT_five : toSizeT 64 5 = 5 := by
  decide

/-- C8: for an open file, `CopyToBuffer` with a null buffer returns false and
leaves the stream as it was, writing to no buffer.  With a non-null buffer it
returns true and copies exactly `k` bytes of the stream content, taken from the
current position, to the start of the buffer, where `k` is the smaller of the
byte count `fileSize` (as converted to `size_t`) and what the stream has left
(nothing when the stream cannot be read).  Every byte of the buffer afterwards
is determined: below `k` it is the file byte, from `k` up to `fileSize` it is
zero in text mode and untouched in binary mode, from `fileSize` on it is
untouched.  The stream ends up with unchanged content, at position 0, with the
end-of-file and error indicators cleared. -/
theorem CopyToBuffer_null_false_else_true (bits : Nat) (f : File) (buf : Buffer)
    (hopen : f.isOpen = true) :
    File.CopyToBuffer bits f none
      = some { ret := false, buffer := none, stream := f.stream } ∧
    ∃ (k : Nat) (out : Buffer) (st : FILE),
      File.CopyToBuffer bits f (some buf)
        = some { ret := true, buffer := some out, stream := st } ∧
      st.position = 0 ∧ st.content = f.stream.content ∧
      k ≤ toSizeT bits f.fileSize ∧
      (toSizeT bits f.fileSize : Int) = f.fileSize % 2 ^ bits ∧
      k ≤ f.stream.content.length - f.stream.position ∧
      (∀ i, i < k → out i = f.stream.content.getD (f.stream.position + i) 0) ∧
      (∀ i, toSizeT bits f.fileSize ≤ i → out i = buf i) ∧
      k = (if f.stream.readable = true
            then min (toSizeT bits f.fileSize)
              (f.stream.content.length - f.stream.position)
            else 0) ∧
      (∀ i, out i =
        if i < k then f.stream.content.getD (f.stream.position + i) 0
        else if f.readAsBinary = false ∧ i < toSizeT bits f.fileSize then 0
        else buf i) ∧
      st = { f.stream with position := 0, eofFlag := false, errFlag := false } := by
  constructor
  · simp [File.CopyToBuffer, hopen]
  · refine ⟨(fread (if !f.readAsBinary then memset buf 0 (toSizeT bits f.fileSize) else buf)
        (toSizeT bits f.fileSize) f.stream).1,
      (fread (if !f.readAsBinary then memset buf 0 (toSizeT bits f.fileSize) else buf)
        (toSizeT bits f.fileSize) f.stream).2.1,
      rewind (fread (if !f.readAsBinary then memset buf 0 (toSizeT bits f.fileSize) else buf)
        (toSizeT bits f.fileSize) f.stream).2.2, ?_, ?_, ?_, ?_, toSizeT_cast bits f.fileSize,
      ?_, ?_, ?_, ?_, ?_, ?_⟩
    · simp [File.CopyToBuffer, hopen]
    · rfl
    · unfold fread rewind
      split <;> rfl
    · unfold fread
      split
      · exact Nat.min_le_left _ _
      · exact Nat.zero_le _
    · unfold fread
      split
      · exact Nat.min_le_right _ _
      · exact Nat.zero_le _
    · intro i hi
      unfold fread at hi ⊢
      split at hi
      · next hr => simp only [hr, if_true, hi]
      · exact absurd hi (Nat.not_lt_zero _)
    · intro i hi
      have hmem : (if !f.readAsBinary then memset buf 0 (toSizeT bits f.fileSize) else buf) i
          = buf i := by
        split
        · simp [memset, Nat.not_lt.mpr hi]
        · rfl
      unfold fread
      split
      · have hk : ¬ i < min (toSizeT bits f.fileSize)
            (f.stream.content.length - f.stream.position) :=
          fun h => absurd (lt_of_lt_of_le h (Nat.min_le_left _ _)) (Nat.not_lt.mpr hi)
        simp only [hk, if_false]
        exact hmem
      · exact hmem
    · unfold fread
      split
      · next hr => simp only [hr, if_true]
      · next hr => simp only [hr, Bool.false_eq_true, if_false]
    · intro i
      have hmem : (if !f.readAsBinary then memset buf 0 (toSizeT bits f.fileSize) else buf) i
          = if f.readAsBinary = false ∧ i < toSizeT bits f.fileSize then 0 else buf i := by
        cases hbin : f.readAsBinary with
        | true => simp
        | false =>
          by_cases hi : i < toSizeT bits f.fileSize
          · simp [memset, hi]
          · simp [memset, hi]
      unfold fread
      split
      · by_cases hk : i < min (toSizeT bits f.fileSize)
            (f.stream.content.length - f.stream.position)
        · simp only [hk, if_true]
        · simp only [hk, if_false]
          exact hmem
      · simp only [Nat.not_lt_zero, if_false]
        exact hmem
    · unfold fread rewind
      split <;> rfl

/-- Instance of C8: a readable text file holding the five bytes of `hello` at
position 2, read through a 64-bit `size_t` into memory that held 7 everywhere.
The three bytes `llo` are copied, the next two bytes are zero, the sixth byte
is untouched, and the stream is back at position 0. -/
theorem CopyToBuffer_null_false_else_true_witness :
    Demo.file.isOpen = true ∧
    File.CopyToBuffer 64 Demo.file none
      = some { ret := false, buffer := none, stream := Demo.file.stream } ∧
    ∃ (out : Buffer) (st : FILE),
      File.CopyToBuffer 64 Demo.file (some (fun _ => 7))
        = some { ret := true, buffer := some out, stream := st } ∧
      [out 0, out 1, out 2, out 3, out 4, out 5] = [108, 108, 111, 0, 0, 7] ∧
      st = { content := [104, 101, 108, 108, 111], position := 0, readable := true
             eofFlag := false, errFlag := false } := by
  obtain ⟨hnull, k, out, st, hrun, _, _, _, _, _, _, _, hk, hout, hst⟩ :=
    CopyToBuffer_null_false_else_true 64 Demo.file (fun _ => 7) rfl
  have hsize : toSizeT 64 Demo.file.fileSize = 5 := toSizeT_five
  have hk3 : k = 3 := by
    rw [hk, hsize]
    rfl
  refine ⟨rfl, hnull, out, st, hrun, ?_, hst⟩
  simp only [hout, hk3, hsize]
  rfl

end fileio

/-! ## Integer arithmetic of a fixed width -/

namespace core.math

theorem two_pow_split (bits : Nat) (hb : 1 ≤ bits) :
    (2 : Int) ^ bits = 2 ^ (bits - 1) + 2 ^ (bits - 1) := by
  obtain ⟨n, rfl⟩ : ∃ n, bits = n + 1 := ⟨bits - 1, by omega⟩
  simp only [Nat.add_sub_cancel, pow_succ]
  ring

theorem wrapInt_modEq (bits : Nat) (signed : Bool) (v : Int) :
    wrapInt bits signed v ≡ v [ZMOD 2 ^ bits] := by
  unfold wrapInt
  split
  · have h := (Int.mod_modEq (v + 2 ^ (bits - 1)) (2 ^ bits)).sub_right (2 ^ (bits - 1))
    simpa using h
  · exact Int.mod_modEq v (2 ^ bits)

theorem wrapInt_congr (bits : Nat) (signed : Bool) {a b : Int}
    (h : a ≡ b [ZMOD 2 ^ bits]) : wrapInt bits signed a = wrapInt bits signed b := by
  unfold wrapInt
  split
  · have h' : a + 2 ^ (bits - 1) ≡ b + 2 ^ (bits - 1) [ZMOD 2 ^ bits] := h.add_right _
    rw [show (a + 2 ^ (bits - 1)) % 2 ^ bits = (b + 2 ^ (bits - 1)) % 2 ^ bits from h']
  · exact h

theorem wrapInt_of_inRange (bits : Nat) (signed : Bool) (hb : 1 ≤ bits) {v : Int}
    (h : InRange bits signed v) : wrapInt bits signed v = v := by
  unfold wrapInt
  unfold InRange at h
  cases signed with
  | true =>
    simp only [if_true] at h ⊢
    have hsplit := two_pow_split bits hb
    rw [Int.emod_eq_of_lt (by omega) (by omega)]
    ring
  | false =>
    simp only [Bool.false_eq_true, if_false] at h ⊢
    exact Int.emod_eq_of_lt h.1 h.2

theorem wrapInt_zero (bits : Nat) (signed : Bool) (hb : 1 ≤ bits) :
    wrapInt bits signed 0 = 0 := by
  apply wrapInt_of_inRange bits signed hb
  unfold InRange
  have h1 : (0 : Int) < 2 ^ (bits - 1) := by positivity
  have h2 : (0 : Int) < 2 ^ bits := by positivity
  split <;> constructor <;> omega

theorem wrapInt_wrapInt (bits : Nat) (signed : Bool) (v : Int) :
    wrapInt bits signed (wrapInt bits signed v) = wrapInt bits signed v :=
  wrapInt_congr bits signed (wrapInt_modEq bits signed v)

/-! ## Operators of `Point3` -/

/-- C13: for every component comparison `Equals` and all points `a`, `b`,
`a != b` is the negation of `a == b`, and `a == b` holds exactly when `Equals`
holds on the three pairs of components. -/
theorem Point3_ne_is_negation_of_eq {T : Type} (A : Scalar T) (a b : Point3 T) :
    Point3.ne A a b = !Point3.eq A a b ∧
    (Point3.ne A a b = true ↔ Point3.eq A a b = false) ∧
    (Point3.eq A a b = true ↔
      A.Equals a.x b.x = true ∧ A.Equals a.y b.y = true ∧ A.Equals a.z b.z = true) := by
  unfold Point3.ne Point3.eq
  cases A.Equals a.x b.x <;> cases A.Equals a.y b.y <;> cases A.Equals a.z b.z <;> simp

theorem intScalar_one (bits : Nat) (hb : 2 ≤ bits) (Equals : Int → Int → Bool)
    (IsZero : Int → Bool) : (intScalar bits true Equals IsZero).one = 1 := by
  show wrapInt bits true 1 = 1
  apply wrapInt_of_inRange bits true (by omega)
  unfold InRange
  have h1 : (2 : Int) ^ 1 ≤ 2 ^ (bits - 1) :=
    pow_le_pow_right₀ (by norm_num) (by omega)
  simp only [if_true]
  constructor <;> omega

theorem wrapInt_neg_one (bits : Nat) (hb : 1 ≤ bits) : wrapInt bits true (-1) = -1 := by
  apply wrapInt_of_inRange bits true hb
  unfold InRange
  have h1 : (0 : Int) < 2 ^ (bits - 1) := by positivity
  simp only [if_true]
  constructor <;> omega

theorem tdiv_one_of_two_le_abs (s : Int) (hs : 2 ≤ |s|) : Int.tdiv 1 s = 0 := by
  rcases le_or_lt 0 s with h | h
  · rw [abs_of_nonneg h] at hs
    exact Int.tdiv_eq_zero_of_lt (by norm_num) (by omega)
  · rw [abs_of_neg h] at hs
    have : s = -(-s) := by ring
    rw [this, Int.tdiv_neg, Int.tdiv_eq_zero_of_lt (by norm_num) (by omega)]
    rfl

/-- C14: for a signed integer component type of at least two bits (`int16`,
`int32`), `operator/` with a scalar that passes the assertion multiplies each
component by the truncated quotient `1 / s`: the result is the zero vector
whenever `|s| ≥ 2`, it is `p` for `s = 1`, and it is `-p`, reduced modulo
`2 ^ bits`, for `s = -1`. -/
theorem Point3_signed_div_multiplies_by_truncated_reciprocal (bits : Nat)
    (Equals : Int → Int → Bool) (IsZero : Int → Bool) (p : Point3 Int) (s : Int)
    (hb : 2 ≤ bits) (hp : p.InRange bits true) (hz : IsZero s = false) :
    Point3.div (intScalar bits true Equals IsZero) p s
      = some (Point3.ctor3
          (wrapInt bits true (p.x * wrapInt bits true (Int.tdiv 1 s)))
          (wrapInt bits true (p.y * wrapInt bits true (Int.tdiv 1 s)))
          (wrapInt bits true (p.z * wrapInt bits true (Int.tdiv 1 s)))) ∧
    (2 ≤ |s| → Point3.div (intScalar bits true Equals IsZero) p s
      = some (Point3.ctor3 0 0 0)) ∧
    (s = 1 → Point3.div (intScalar bits true Equals IsZero) p s = some p) ∧
    (s = -1 → Point3.div (intScalar bits true Equals IsZero) p s
      = some (Point3.neg (intScalar bits true Equals IsZero) p)) ∧
    Point3.neg (intScalar bits true Equals IsZero) p
      = Point3.ctor3 (wrapInt bits true (-p.x)) (wrapInt bits true (-p.y))
          (wrapInt bits true (-p.z)) := by
  have hone := intScalar_one bits hb Equals IsZero
  have hdiv : Point3.div (intScalar bits true Equals IsZero) p s
      = some (Point3.ctor3
          (wrapInt bits true (p.x * wrapInt bits true (Int.tdiv 1 s)))
          (wrapInt bits true (p.y * wrapInt bits true (Int.tdiv 1 s)))
          (wrapInt bits true (p.z * wrapInt bits true (Int.tdiv 1 s)))) := by
    have hz' : (intScalar bits true Equals IsZero).IsZero s = false := hz
    simp only [Point3.div, hz', hone]
    rfl
  refine ⟨hdiv, ?_, ?_, ?_, rfl⟩
  · intro hs
    rw [hdiv, tdiv_one_of_two_le_abs s hs, wrapInt_zero bits true (by omega)]
    simp [wrapInt_zero bits true (by omega : 1 ≤ bits)]
  · intro hs
    subst hs
    have h1 : wrapInt bits true (Int.tdiv 1 1) = 1 := by
      have := intScalar_one bits hb Equals IsZero
      simpa [intScalar] using this
    rw [hdiv, h1]
    simp only [mul_one, wrapInt_of_inRange bits true (by omega) hp.1,
      wrapInt_of_inRange bits true (by omega) hp.2.1,
      wrapInt_of_inRange bits true (by omega) hp.2.2]
    rfl
  · intro hs
    subst hs
    have h1 : wrapInt bits true (Int.tdiv 1 (-1)) = -1 := by
      have : Int.tdiv 1 (-1) = -1 := by decide
      rw [this, wrapInt_neg_one bits (by omega)]
    rw [hdiv, h1]
    simp only [mul_neg, mul_one]
    rfl

/-- Instance of C14 for `Point3i`: dividing (6, -8, 10) by 2, by -3, by 1 and
by -1; the quotient by 2 is the zero vector, not (3, -4, 5). -/
theorem Point3_signed_div_multiplies_by_truncated_reciprocal_witness :
    (2 ≤ 32 ∧ (Point3.ctor3 6 (-8) 10 : Point3 Int).InRange 32 true) ∧
    Point3.div (int32Scalar (fun a b => a == b) (fun a => a == 0)) (Point3.ctor3 6 (-8) 10) 2
      = some (Point3.ctor3 0 0 0) ∧
    Point3.div (int32Scalar (fun a b => a == b) (fun a => a == 0)) (Point3.ctor3 6 (-8) 10) (-3)
      = some (Point3.ctor3 0 0 0) ∧
    Point3.div (int32Scalar (fun a b => a == b) (fun a => a == 0)) (Point3.ctor3 6 (-8) 10) 1
      = some (Point3.ctor3 6 (-8) 10) ∧
    Point3.div (int32Scalar (fun a b => a == b) (fun a => a == 0)) (Point3.ctor3 6 (-8) 10) (-1)
      = some (Point3.neg (int32Scalar (fun a b => a == b) (fun a => a == 0))
          (Point3.ctor3 6 (-8) 10)) :=
  have hr : (Point3.ctor3 6 (-8) 10 : Point3 Int).InRange 32 true := by
    simp only [Point3.InRange, InRange, Point3.ctor3, if_true]
    norm_num
  ⟨⟨by decide, hr⟩,
    (Point3_signed_div_multiplies_by_truncated_reciprocal 32 (fun a b => a == b)
      (fun a => a == 0) (Point3.ctor3 6 (-8) 10) 2 (by decide) hr (by decide)).2.1 (by decide),
    (Point3_signed_div_multiplies_by_truncated_reciprocal 32 (fun a b => a == b)
      (fun a => a == 0) (Point3.ctor3 6 (-8) 10) (-3) (by decide) hr (by decide)).2.1 (by decide),
    (Point3_signed_div_multiplies_by_truncated_reciprocal 32 (fun a b => a == b)
      (fun a => a == 0) (Point3.ctor3 6 (-8) 10) 1 (by decide) hr (by decide)).2.2.1 rfl,
    (Point3_signed_div_multiplies_by_truncated_reciprocal 32 (fun a b => a == b)
      (fun a => a == 0) (Point3.ctor3 6 (-8) 10) (-1) (by decide) hr (by decide)).2.2.2.1 rfl⟩

/-- C15: each compound assignment leaves in its left operand the result of
the corresponding binary operator applied to the old operands, for every
component type and so for the integer types with arithmetic modulo `2 ^ bits`,
and also when both operands are the same object.  Every other object,
in particular a right operand that is a different object, is unchanged, and the
returned reference is the left operand.  `/=` fails its assertion exactly when
`/` does. -/
theorem Point3_compound_assignment_matches_binary {T : Type} (A : Scalar T)
    (m : PointMem T) (this other : Nat) (s : T) :
    ((Point3.addAssign A m this other).1 this = Point3.add A (m this) (m other) ∧
      (∀ a, a ≠ this → (Point3.addAssign A m this other).1 a = m a) ∧
      (Point3.addAssign A m this other).2 = this) ∧
    ((Point3.subAssign A m this other).1 this = Point3.sub A (m this) (m other) ∧
      (∀ a, a ≠ this → (Point3.subAssign A m this other).1 a = m a) ∧
      (Point3.subAssign A m this other).2 = this) ∧
    ((Point3.mulAssign A m this s).1 this = Point3.mul A (m this) s ∧
      (∀ a, a ≠ this → (Point3.mulAssign A m this s).1 a = m a) ∧
      (Point3.mulAssign A m this s).2 = this) ∧
    ((Point3.divAssign A m this s).map (fun r => r.1 this) = Point3.div A (m this) s ∧
      (∀ a, a ≠ this → (Point3.divAssign A m this s).map (fun r => r.1 a)
        = (Point3.div A (m this) s).map (fun _ => m a)) ∧
      (Point3.divAssign A m this s).map (fun r => r.2)
        = (Point3.div A (m this) s).map (fun _ => this)) := by
  refine ⟨⟨?_, ?_, rfl⟩, ⟨?_, ?_, rfl⟩, ⟨?_, ?_, rfl⟩, ⟨?_, ?_, ?_⟩⟩
  · by_cases h : other = this <;>
      simp [Point3.addAssign, Point3.add, Point3.ctor3, PointMem.setX, PointMem.setY,
        PointMem.setZ, h]
  · intro a ha
    simp [Point3.addAssign, PointMem.setX, PointMem.setY, PointMem.setZ, ha]
  · by_cases h : other = this <;>
      simp [Point3.subAssign, Point3.sub, Point3.ctor3, PointMem.setX, PointMem.setY,
        PointMem.setZ, h]
  · intro a ha
    simp [Point3.subAssign, PointMem.setX, PointMem.setY, PointMem.setZ, ha]
  · simp [Point3.mulAssign, Point3.mul, Point3.ctor3, PointMem.setX, PointMem.setY,
      PointMem.setZ]
  · intro a ha
    simp [Point3.mulAssign, PointMem.setX, PointMem.setY, PointMem.setZ, ha]
  · by_cases hz : A.IsZero s = true <;>
      simp [Point3.divAssign, Point3.div, Point3.ctor3, PointMem.setX, PointMem.setY,
        PointMem.setZ, hz]
  · intro a ha
    by_cases hz : A.IsZero s = true <;>
      simp [Point3.divAssign, Point3.div, PointMem.setX, PointMem.setY, PointMem.setZ, hz, ha]
  · by_cases hz : A.IsZero s = true <;> simp [Point3.divAssign, Point3.div, hz]

/-- C16: for every point and each index below 3 the assertion of `operator[]`
holds; `p[0]`, `p[1]`, `p[2]` are `x`, `y`, `z`; reading through the reference
that the non-const overload returns gives what the const overload returns; and
assigning `v` through that reference replaces the component at the index and
leaves the other two as they were. -/
theorem Point3_index_selects_component {T : Type} (p : Point3 T) (v : T) :
    (p.index 0 = some p.x ∧ p.index 1 = some p.y ∧ p.index 2 = some p.z) ∧
    (∀ i, i < 3 → (p.index i).isSome = true ∧ (p.indexRef i).isSome = true) ∧
    (∀ i, (p.indexRef i).bind p.load = p.index i) ∧
    ((p.indexRef 0).bind (fun r => p.store r v) = some { p with x := v } ∧
      (p.indexRef 1).bind (fun r => p.store r v) = some { p with y := v } ∧
      (p.indexRef 2).bind (fun r => p.store r v) = some { p with z := v }) ∧
    (∀ i j (q : Point3 T), i < 3 → j < 3 → (p.indexRef i).bind (fun r => p.store r v) = some q →
      q.index j = if j = i then some v else p.index j) := by
  refine ⟨⟨rfl, rfl, rfl⟩, ?_, ?_, ⟨rfl, rfl, rfl⟩, ?_⟩
  · intro i hi
    have : i = 0 ∨ i = 1 ∨ i = 2 := by omega
    rcases this with rfl | rfl | rfl <;> exact ⟨rfl, rfl⟩
  · intro i
    by_cases hi : i < 3
    · simp [Point3.indexRef, Point3.index, hi]
    · simp [Point3.indexRef, Point3.index, hi]
  · intro i j q hi hj hq
    have hi' : i = 0 ∨ i = 1 ∨ i = 2 := by omega
    have hj' : j = 0 ∨ j = 1 ∨ j = 2 := by omega
    rcases hi' with rfl | rfl | rfl <;>
      simp only [Point3.indexRef, Nat.lt_irrefl, Option.some_bind, Point3.store,
        Option.some.injEq, if_true, Nat.reduceLT] at hq <;>
      subst hq <;>
      rcases hj' with rfl | rfl | rfl <;>
      simp [Point3.index, Point3.load]

/-- C17: for an integer component type of at least one bit, signed or
unsigned, with arithmetic modulo `2 ^ bits`: `p - q` is `p + (-q)`, `p + (-p)`
is the zero vector, which is what `Zero()` and `Point3(0)` produce, `-(-p)` is
`p` for a point whose components are values of the type, and `p + q` is
`q + p`. -/
theorem Point3_integer_additive_group (bits : Nat) (signed : Bool)
    (Equals : Int → Int → Bool) (IsZero : Int → Bool) (p q : Point3 Int)
    (hb : 1 ≤ bits) (hp : p.InRange bits signed) :
    Point3.sub (intScalar bits signed Equals IsZero) p q
      = Point3.add (intScalar bits signed Equals IsZero) p
          (Point3.neg (intScalar bits signed Equals IsZero) q) ∧
    Point3.add (intScalar bits signed Equals IsZero) p
        (Point3.neg (intScalar bits signed Equals IsZero) p)
      = Point3.Zero (intScalar bits signed Equals IsZero) q ∧
    Point3.Zero (intScalar bits signed Equals IsZero) q = Point3.ctor1 0 ∧
    Point3.neg (intScalar bits signed Equals IsZero)
        (Point3.neg (intScalar bits signed Equals IsZero) p) = p ∧
    Point3.add (intScalar bits signed Equals IsZero) p q
      = Point3.add (intScalar bits signed Equals IsZero) q p := by
  have hsub : ∀ a b : Int, wrapInt bits signed (a - b)
      = wrapInt bits signed (a + wrapInt bits signed (-b)) := by
    intro a b
    apply wrapInt_congr
    have h := (wrapInt_modEq bits signed (-b)).symm
    have h2 := h.add_left a
    simpa [sub_eq_add_neg] using h2
  have hinv : ∀ a : Int, wrapInt bits signed (a + wrapInt bits signed (-a)) = 0 := by
    intro a
    rw [← hsub, sub_self, wrapInt_zero bits signed hb]
  have hneg : ∀ a : Int, InRange bits signed a →
      wrapInt bits signed (-wrapInt bits signed (-a)) = a := by
    intro a ha
    have h := (wrapInt_modEq bits signed (-a)).neg
    rw [neg_neg] at h
    rw [wrapInt_congr bits signed h, wrapInt_of_inRange bits signed hb ha]
  have hz := wrapInt_zero bits signed hb
  refine ⟨?_, ?_, ?_, ?_, ?_⟩
  · simp only [Point3.sub, Point3.add, Point3.neg, Point3.ctor3, intScalar, hsub]
  · simp only [Point3.add, Point3.neg, Point3.Zero, Point3.ctor3, intScalar, hinv, hz]
  · simp only [Point3.Zero, Point3.ctor1, intScalar, hz]
  · obtain ⟨hx, hy, hzz⟩ := hp
    simp only [Point3.neg, Point3.ctor3, intScalar, hneg _ hx, hneg _ hy, hneg _ hzz]
  · simp only [Point3.add, Point3.ctor3, intScalar, add_comm]

/-- Instance of C17 for `Point3u` and `Point3i`. -/
theorem Point3_integer_additive_group_witness :
    (1 ≤ 32 ∧ (Point3.ctor3 1 0 4294967295 : Point3 Int).InRange 32 false) ∧
    Point3.add (uint32Scalar (fun a b => a == b) (fun a => a == 0))
        (Point3.ctor3 1 0 4294967295)
        (Point3.neg (uint32Scalar (fun a b => a == b) (fun a => a == 0))
          (Point3.ctor3 1 0 4294967295))
      = Point3.ctor1 0 ∧
    Point3.neg (int32Scalar (fun a b => a == b) (fun a => a == 0))
        (Point3.neg (int32Scalar (fun a b => a == b) (fun a => a == 0))
          (Point3.ctor3 1 (-2) (-2147483648)))
      = Point3.ctor3 1 (-2) (-2147483648) :=
  have hu : (Point3.ctor3 1 0 4294967295 : Point3 Int).InRange 32 false := by
    simp only [Point3.InRange, InRange, Point3.ctor3, Bool.false_eq_true, if_false]
    norm_num
  have hi : (Point3.ctor3 1 (-2) (-2147483648) : Point3 Int).InRange 32 true := by
    simp only [Point3.InRange, InRange, Point3.ctor3, if_true]
    norm_num
  have h1 := Point3_integer_additive_group 32 false (fun a b => a == b) (fun a => a == 0)
    (Point3.ctor3 1 0 4294967295) (Point3.ctor3 0 0 0) (by decide) hu
  have h2 := Point3_integer_additive_group 32 true (fun a b => a == b) (fun a => a == 0)
    (Point3.ctor3 1 (-2) (-2147483648)) (Point3.ctor3 0 0 0) (by decide) hi
  ⟨⟨by decide, hu⟩, h1.2.1.trans h1.2.2.1, h2.2.2.2.1⟩

end core.math

/-! ## Zero termination of text files -/

namespace fileio

/-- For an open file in text mode every byte of the buffer from the number of
bytes read up to the byte count `fileSize` is zero after `CopyToBuffer`. -/
theorem CopyToBuffer_text_tail_is_zero (bits : Nat) (f : File) (buf : Buffer)
    (hopen : f.isOpen = true) (htext : f.readAsBinary = false) :
    ∃ (out : Buffer) (st : FILE),
      File.CopyToBuffer bits f (some buf)
        = some { ret := true, buffer := some out, stream := st } ∧
      ∀ i, (fread (memset buf 0 (toSizeT bits f.fileSize)) (toSizeT bits f.fileSize)
          f.stream).1 ≤ i → i < toSizeT bits f.fileSize → out i = 0 := by
  refine ⟨(fread (memset buf 0 (toSizeT bits f.fileSize)) (toSizeT bits f.fileSize)
      f.stream).2.1,
    rewind (fread (memset buf 0 (toSizeT bits f.fileSize)) (toSizeT bits f.fileSize)
      f.stream).2.2, ?_, ?_⟩
  · simp [File.CopyToBuffer, hopen, htext]
  · intro i hk hi
    unfold fread at hk ⊢
    split
    · next hr =>
      simp only [hr, if_true] at hk
      simp only [Nat.not_lt.mpr hk, if_false, memset, hi, if_true]
    · simp only [memset, hi, if_true]

/-- C11 at a failing input: a text file that holds the five bytes of `hello`
and no line end, with `fileSize = 5`, read from its start.  `fread` delivers
all five bytes, so the number of bytes read is not less than `fileSize`, and
none of the first `fileSize` bytes of the buffer is zero afterwards. -/
theorem CopyToBuffer_text_without_line_end_is_not_terminated :
    Demo.plainFile.isOpen = true ∧ Demo.plainFile.readAsBinary = false ∧
    Demo.plainFile.fileSize = 5 ∧
    (fread (memset (fun _ => 7) 0 (toSizeT 64 Demo.plainFile.fileSize))
      (toSizeT 64 Demo.plainFile.fileSize) Demo.plainFile.stream).1 = 5 ∧
    ∃ (out : Buffer) (st : FILE),
      File.CopyToBuffer 64 Demo.plainFile (some (fun _ => 7))
        = some { ret := true, buffer := some out, stream := st } ∧
      [out 0, out 1, out 2, out 3, out 4] = [104, 101, 108, 108, 111] ∧
      ∀ i, i < 5 → out i ≠ 0 := by
  have hsize : toSizeT 64 Demo.plainFile.fileSize = 5 := toSizeT_five
  refine ⟨rfl, rfl, rfl, ?_, ?_⟩
  · rw [hsize]
    rfl
  · refine ⟨(fread (memset (fun _ => 7) 0 5) 5 Demo.plainFile.stream).2.1,
      rewind (fread (memset (fun _ => 7) 0 5) 5 Demo.plainFile.stream).2.2, ?_, rfl, ?_⟩
    · simp only [File.CopyToBuffer, hsize]
      rfl
    · intro i hi
      have : i = 0 ∨ i = 1 ∨ i = 2 ∨ i = 3 ∨ i = 4 := by omega
      rcases this with rfl | rfl | rfl | rfl | rfl <;> decide

end fileio

/-! ## Material and primitive type of a new face -/

namespace objfile

/-- C12: every face the constructor builds has a null material pointer and the
primitive type that was passed, which is `aiPrimitiveType_POLYGON` when the
argument is left out.  The constructor has no failure path and does not look at
the index vectors: for every primitive type and every vector `v` behind the
vertex pointer, of any length, the face is built with that type and that
vector. -/
theorem Face_ctor_material_null_type_as_passed (h : Heap) (pV pN pT : Addr)
    (pt : aiPrimitiveType) (v : List Nat) :
    (Face.ctor pV pN pT pt).m_pMaterial = NULL ∧
    (Face.ctor pV pN pT pt).m_PrimitiveType = pt ∧
    (Face.ctor3 pV pN pT).m_pMaterial = NULL ∧
    (Face.ctor3 pV pN pT).m_PrimitiveType = aiPrimitiveType.aiPrimitiveType_POLYGON ∧
    Face.ctor3 pV pN pT = Face.ctor pV pN pT aiPrimitiveType.aiPrimitiveType_POLYGON ∧
    (Face.ctor (pV + 1) pN pT pt).m_PrimitiveType = pt ∧
    indexSequence (fun a => if a = pV + 1 then some (.indexArray v) else h a)
      (Face.ctor (pV + 1) pN pT pt).m_pVertices = some v := by
  refine ⟨rfl, rfl, rfl, rfl, rfl, rfl, ?_⟩
  simp [indexSequence, Face.ctor, NULL]

end objfile
